import Mathlib

/-!
Verification of the lewton Vorbis decoder against its specification.

Shallow embedding of the relevant parts of the decoder:
* `src/bitpacking.rs` : the LSB-first bit cursor (`BitpackCursor`, `bpc_read_body`).
* `src/huffman_tree.rs` : Huffman tree construction (`VorbisHuffmanTree::load_from_array`).
* `src/header.rs` : codebook/floor/residue records of the setup header.
* `src/audio.rs` : neighbor search, floor-1 curve synthesis, window geometry,
  the overlap-add state machine, and the sample-count preview.
* `src/samples.rs` : float-to-i16 sample conversion.

Machine integers are modelled as `Nat`/`Int`; the Rust code never overflows at
the places embedded here (this is argued in comments where it matters).
Fallible operations return `Except`/`Option`; a partial (panicking) Rust
function is modelled with an outer `Option` whose `none` marks the panic.
-/

namespace Lewton

/-- Bit-length helper with explicit fuel (structural recursion so that closed
instances reduce definitionally). -/
def ilogAux : Nat → Nat → Nat
  | 0, _ => 0
  | fuel + 1, v => if v = 0 then 0 else ilogAux fuel (v >>> 1) + 1

/-- `ilog` from `src/lib.rs`: `64 - val.leading_zeros()` on `u64`, i.e. the
bit length of `val` (`ilog 0 = 0`, `ilog 1 = 1`, `ilog 2 = ilog 3 = 2`, ...);
64 shift steps suffice for any `u64` value. -/
def ilog (v : Nat) : Nat := ilogAux 64 v

/-! ## Bitpacking layer (`src/bitpacking.rs`) -/

/-- The state of a `BitpackCursor`: an in-byte bit index, a byte index and the
underlying byte slice (bytes are values `< 256`). -/
structure BitpackCursor where
  bitCursor : Nat
  byteCursor : Nat
  inner : List Nat
deriving Repr, DecidableEq

/-- `mask_bits` from `src/bitpacking.rs`:
`!((!0u8).wrapping_shl(num)) | if num >= 8 { 0xff } else { 0 }`.
`wrapping_shl` on `u8` masks the shift count by 8. -/
def maskBits (num : Nat) : Nat :=
  Nat.xor 255 ((255 <<< (num % 8)) % 256) ||| (if 8 ≤ num then 255 else 0)

/-- `bmask_bits` from `src/bitpacking.rs`: `(!0u8).wrapping_shr(8 - num)`. -/
def bmaskBits (num : Nat) : Nat :=
  255 >>> ((8 - num) % 8)

/-- The body of the `bpc_read_body!` macro of `src/bitpacking.rs` (lines
93-161), parameterized over `$bitnum` and `$octetnum` exactly as the macro is.
The pair mirrors the Rust `&mut self` method: the second component is the
cursor after the call (the `return Err(())` paths leave it untouched, as no
field assignment precedes them in the source).  Byte loads `buf[i]` are in
bounds in the source after the explicit length checks; they are modelled with
`getD _ 0`. -/
def bpcRead (bitnum octetnum : Nat) (c : BitpackCursor) :
    Except Unit Nat × BitpackCursor :=
  let lastOctetFrac : Nat := if octetnum * 8 < bitnum then 1 else 0
  let ornd := lastOctetFrac + octetnum
  let bca := (c.bitCursor + bitnum) % 8
  if 8 * ornd < c.bitCursor + bitnum then
    if c.inner.length < c.byteCursor + 1 + ornd then
      (Except.error (), c)
    else
      let buf := fun i => (c.inner.drop c.byteCursor).getD i 0
      let res0 := buf 0 >>> c.bitCursor
      let res1 := (List.range (ornd - 1)).foldl
        (fun acc k => acc ||| (buf (k + 1) <<< (8 - c.bitCursor + 8 * k))) res0
      let lastBits := buf ornd &&& maskBits bca
      let res := res1 ||| (lastBits <<< (8 - c.bitCursor + 8 * (ornd - 1)))
      (Except.ok res,
        { c with byteCursor := c.byteCursor + ornd, bitCursor := bca })
  else
    if c.inner.length < c.byteCursor + ornd then
      (Except.error (), c)
    else
      let buf := fun i => (c.inner.drop c.byteCursor).getD i 0
      let res0 := buf 0 >>> c.bitCursor
      let res0m := if bitnum ≤ 8 then res0 &&& maskBits bitnum else res0
      let res1 := (List.range (ornd - 1 - 1)).foldl
        (fun acc k => acc ||| (buf (k + 1) <<< (8 - c.bitCursor + 8 * k))) res0m
      let res :=
        if 8 < bitnum then
          res1 |||
            ((buf (ornd - 1) &&& bmaskBits bca) <<<
              (8 - c.bitCursor + 8 * (ornd - 1 - 1)))
        else res1
      (Except.ok res,
        { c with
          byteCursor := c.byteCursor + octetnum +
            (if c.bitCursor = 8 - bitnum % 8 then 1 else 0),
          bitCursor := bca })

/-- `uk_dynamic_reader!` (`read_dyn_u8` .. `read_dyn_u64`): a zero-width read
returns `Ok(0)` without touching the cursor, otherwise `bpc_read_body` runs
with `octet_num = bit_num / 8`. -/
def readDynU (bitNum : Nat) (c : BitpackCursor) :
    Except Unit Nat × BitpackCursor :=
  if bitNum = 0 then (Except.ok 0, c)
  else bpcRead bitNum (bitNum / 8) c

/-- `sign_extend!` of `src/bitpacking.rs`: reinterpret the low `bits` bits of
`v` as a two's complement signed value. -/
def signExtend (bits : Nat) (v : Nat) : Int :=
  if v % 2 ^ bits < 2 ^ (bits - 1) then ((v % 2 ^ bits : Nat) : Int)
  else ((v % 2 ^ bits : Nat) : Int) - 2 ^ bits

/-- `ik_reader!` instantiation `read_i32` (bitnum 32, octetnum 4). -/
def readI32 (c : BitpackCursor) : Except Unit Int × BitpackCursor :=
  let r := bpcRead 32 4 c
  (r.1.map (signExtend 32), r.2)

/-- `ik_reader!` instantiation `read_i8` (bitnum 8, octetnum 1). -/
def readI8 (c : BitpackCursor) : Except Unit Int × BitpackCursor :=
  let r := bpcRead 8 1 c
  (r.1.map (signExtend 8), r.2)

/-- `ik_dynamic_reader!` (`read_dyn_i8` .. `read_dyn_i32`); note the source has
no zero-width special case here, `bpc_read_body` runs unconditionally. -/
def readDynI (bitNum : Nat) (c : BitpackCursor) :
    Except Unit Int × BitpackCursor :=
  let r := bpcRead bitNum (bitNum / 8) c
  (r.1.map (signExtend bitNum), r.2)

/-- `read_bit_flag`: `read_u1` compared against 1. -/
def readBitFlag (c : BitpackCursor) : Except Unit Bool × BitpackCursor :=
  let r := bpcRead 1 0 c
  (r.1.map (fun v => v = 1), r.2)

/-- `float32_unpack` of `src/bitpacking.rs`, with the float arithmetic carried
out exactly in `ℚ` (`mantissa * 2^(exp - 788)`); the `f32` rounding/overflow of
the final cast is not modelled (the value is irrelevant to the cursor-state
claims below). -/
def float32Unpack (val : Nat) : ℚ :=
  let sgn := val &&& 0x80000000
  let exp := (val &&& 0x7fe00000) >>> 21
  let mantissa : ℚ := ((val &&& 0x1fffff : Nat) : ℚ)
  let signedMantissa := if sgn ≠ 0 then -mantissa else mantissa
  signedMantissa * (2 : ℚ) ^ ((exp : Int) - 788)

/-- `read_f32`: `read_u32` followed by the pure `float32_unpack`. -/
def readF32 (c : BitpackCursor) : Except Unit ℚ × BitpackCursor :=
  let r := bpcRead 32 4 c
  (r.1.map float32Unpack, r.2)

/-! ## Huffman tree construction (`src/huffman_tree.rs`) -/

/-- The `HuffTree` struct of `src/huffman_tree.rs`: a binary tree with an
`even_childs` bookkeeping flag, an optional payload, and optional children. -/
inductive HuffTree where
  | node (evenChilds : Bool) (payload : Option Nat) (l r : Option HuffTree)
deriving Repr

/-- The `even_childs` field accessor. -/
def HuffTree.evenChilds : HuffTree → Bool
  | .node ec _ _ _ => ec

/-- `HuffTree::insert_rec` (lines 66-123 of `src/huffman_tree.rs`).  The Rust
method mutates `self` and returns a `bool`; here the pair carries the success
flag and the tree after the call.  The `self.l.as_mut().unwrap()` of the
source (reachable only for trees violating the construction invariant) is
modelled by the `| none => (false, ...)` arm. -/
def insertRec : HuffTree → Nat → Nat → Bool × HuffTree
  | .node ec pl l r, payload, 0 =>
    if pl.isSome then (false, .node ec pl l r)
    else
      if l.isSome || r.isSome then (false, .node ec pl l r)
      else (true, .node ec (some payload) l r)
  | .node ec pl l r, payload, d + 1 =>
    if pl.isSome then (false, .node ec pl l r)
    else
      if ec then
        match l with
        | some _ => (false, .node ec pl l r)
        | none =>
          let newNode := (insertRec (.node true none none none) payload d).2
          (true, .node false pl (some newNode) r)
      else
        match l with
        | none => (false, .node ec pl l r)
        | some left =>
          let attempt :=
            if !left.evenChilds then insertRec left payload d
            else (false, left)
          if attempt.1 then
            (true, .node (attempt.2.evenChilds &&
                (match r with | some right => right.evenChilds | none => false))
              pl (some attempt.2) r)
          else
            match r with
            | some right =>
              let rr := insertRec right payload d
              (rr.1, .node (attempt.2.evenChilds && rr.2.evenChilds) pl
                (some attempt.2) (some rr.2))
            | none =>
              let nn := insertRec (.node true none none none) payload d
              (nn.1, .node (attempt.2.evenChilds && nn.2.evenChilds) pl
                (some attempt.2) (some nn.2))

/-- The `HuffmanError` enum of `src/huffman_tree.rs`. -/
inductive HuffmanError where
  | overspecified
  | underpopulated
  | invalidSingleEntry
deriving Repr, DecidableEq

/-- Flattened Huffman tree: the `desc_prog` pre-order array of
`VorbisHuffmanTree` (leaves carry the payload, interior nodes have the high
bit of the first word set followed by the two child indices).  The 256-entry
`unrolled_entries` peek-acceleration table of the source is a cache derived
from the same tree and is not modelled; decoding is modelled through the
tree walk (`VorbisHuffmanIter::next`). -/
structure VorbisHuffmanTree where
  descProg : List Nat
deriving Repr, DecidableEq

/-- The `traverse` helper of `load_from_array` (lines 229-251): pre-order
flattening with backpatching of the two child indices.  The source unwraps
both children whenever `has_children`; a one-child node (reachable only for
shapes rejected as underpopulated) falls into the leaf arm. -/
def traverse : HuffTree → List Nat → List Nat × Nat
  | .node _ pl l r, descProg =>
    let curPos := descProg.length
    let hasChildren := l.isSome || r.isSome
    let entry := (if hasChildren then 1 <<< 31 else 0) ||| pl.getD 0
    match l, r with
    | some lt, some rt =>
      let d1 := descProg ++ [entry, 0, 0]
      let p2 := traverse lt d1
      let p3 := traverse rt p2.1
      (((p3.1.set (curPos + 1) p2.2).set (curPos + 2) p3.2), curPos)
    | _, _ =>
      (descProg ++ [entry], curPos)

/-- The insertion loop of `load_from_array` (lines 186-197): zero lengths are
skipped, each nonzero length is inserted, a failed insertion aborts with
`none` (the `Overspecified` path).  The accumulated state is
`(tree, cnt, last_valid_idx)`. -/
def insertAllLoop : List (Nat × Nat) → HuffTree → Nat → Option Nat →
    Option (HuffTree × Nat × Option Nat)
  | [], t, cnt, lvi => some (t, cnt, lvi)
  | (i, len) :: rest, t, cnt, lvi =>
    if len = 0 then insertAllLoop rest t cnt lvi
    else
      let s := insertRec t i len
      if s.1 then insertAllLoop rest s.2 (cnt + 1) (some i) else none

/-- The empty tree `load_from_array` starts from. -/
def rootTree : HuffTree := .node true none none none

/-- `VorbisHuffmanTree::load_from_array` (lines 182-307 of
`src/huffman_tree.rs`). -/
def loadFromArray (lengths : List Nat) : Except HuffmanError VorbisHuffmanTree :=
  match insertAllLoop lengths.enum rootTree 0 none with
  | none => Except.error HuffmanError.overspecified
  | some (t, cnt, lvi) =>
    if cnt = 1 then
      let decoded := lvi.getD 0
      let encodedLen := lengths.getD decoded 0
      if encodedLen = 1 then
        Except.ok ⟨[1 <<< 31, 3, 3, decoded]⟩
      else Except.error HuffmanError.invalidSingleEntry
    else if !t.evenChilds then Except.error HuffmanError.underpopulated
    else Except.ok ⟨(traverse t []).1⟩

/-- `VorbisHuffmanIter::next` (lines 361-380): one decoding step from
position `pos`; returns the decoded payload (and the reset position 0) on a
leaf, or `none` with the new interior position. -/
def iterNext (descProg : List Nat) (pos : Nat) (bit : Bool) : Option Nat × Nat :=
  let posNew := descProg.getD (pos + 1 + (if bit then 1 else 0)) 0
  let child := descProg.getD posNew 0
  if child &&& (1 <<< 31) ≠ 0 then (none, posNew)
  else (some child, 0)

theorem bpcRead_error_eq (bitnum octetnum : Nat) (c : BitpackCursor)
    (h : (bpcRead bitnum octetnum c).1 = Except.error ()) :
    (bpcRead bitnum octetnum c).2 = c := by
  unfold bpcRead at h ⊢
  dsimp only at h ⊢
  by_cases hA : octetnum * 8 < bitnum
  · rw [if_pos hA] at h ⊢
    by_cases hB : 8 * (1 + octetnum) < c.bitCursor + bitnum
    · rw [if_pos hB] at h ⊢
      by_cases hC : c.inner.length < c.byteCursor + 1 + (1 + octetnum)
      · rw [if_pos hC]
      · rw [if_neg hC] at h; simp at h
    · rw [if_neg hB] at h ⊢
      by_cases hC : c.inner.length < c.byteCursor + (1 + octetnum)
      · rw [if_pos hC]
      · rw [if_neg hC] at h; simp at h
  · rw [if_neg hA] at h ⊢
    by_cases hB : 8 * (0 + octetnum) < c.bitCursor + bitnum
    · rw [if_pos hB] at h ⊢
      by_cases hC : c.inner.length < c.byteCursor + 1 + (0 + octetnum)
      · rw [if_pos hC]
      · rw [if_neg hC] at h; simp at h
    · rw [if_neg hB] at h ⊢
      by_cases hC : c.inner.length < c.byteCursor + (0 + octetnum)
      · rw [if_pos hC]
      · rw [if_neg hC] at h; simp at h

/-! ## Header data model (`src/header.rs`) -/

/-- The `HeaderReadError` enum of `src/header.rs`. -/
inductive HeaderReadError where
  | endOfPacket
  | notVorbisHeader
  | unsupportedVorbisVersion
  | headerBadFormat
  | headerBadType (t : Nat)
  | headerIsAudio
  | utf8DecodeError
  | bufferNotAddressable
deriving Repr, DecidableEq

/-- The `Codebook` struct of `src/header.rs`.  The VQ lookup floats are carried
as exact rationals; only the presence of the lookup matters for the claims
below. -/
structure Codebook where
  codebookDimensions : Nat
  codebookEntries : Nat
  codebookVqLookupVec : Option (List ℚ)
  codebookHuffmanTree : VorbisHuffmanTree

/-- The `ResidueBook` struct: a cascade bitmap and the eight pass-book
slots. -/
structure ResidueBook where
  valsUsed : Nat
  valI : List Nat
deriving Repr, DecidableEq

/-- `ResidueBook::get_val` (lines 428-439 of `src/header.rs`).  The outer
`Option` models the `panic!` for `i >= 8`; otherwise the inner `Option`
is the Rust return value. -/
def ResidueBook.getVal (b : ResidueBook) (i : Nat) : Option (Option Nat) :=
  if 8 ≤ i then none
  else if b.valsUsed &&& (1 <<< i) > 0 then some (some (b.valI.getD i 0))
  else some none

/-- `ResidueBook::read_book` (lines 441-462 of `src/header.rs`).  Note the
source loop runs `for i in 0 .. 7`, visiting bits 0 through 6 only. -/
def ResidueBook.readBook (rdr : BitpackCursor) (valsUsed : Nat)
    (codebooks : List Codebook) :
    Except HeaderReadError (ResidueBook × BitpackCursor) := do
  let init : List Nat × BitpackCursor := (List.replicate 8 0, rdr)
  let st ← (List.range 7).foldlM (fun (st : List Nat × BitpackCursor) i => do
    if valsUsed &&& (1 <<< i) = 0 then
      pure st
    else
      match bpcRead 8 1 st.2 with
      | (Except.error _, _) => Except.error HeaderReadError.endOfPacket
      | (Except.ok valEntry, c) =>
        if (match codebooks.get? valEntry with
            | some v => v.codebookVqLookupVec.isNone
            | none => true) then
          Except.error HeaderReadError.headerBadFormat
        else
          pure (st.1.set i valEntry, c)) init
  pure (⟨valsUsed, st.1⟩, st.2)

/-- The `Residue` struct of `src/header.rs`. -/
structure Residue where
  residueType : Nat
  residueBegin : Nat
  residueEnd : Nat
  residuePartitionSize : Nat
  residueClassifications : Nat
  residueClassbook : Nat
  residueBooks : List ResidueBook
deriving Repr, DecidableEq

/-- The `Mapping` struct of `src/header.rs`. -/
structure Mapping where
  mappingSubmaps : Nat
  mappingMagnitudes : List Nat
  mappingAngles : List Nat
  mappingMux : List Nat
  mappingSubmapFloors : List Nat
  mappingSubmapResidues : List Nat
deriving Repr, DecidableEq

/-- The `ModeInfo` struct of `src/header.rs`. -/
structure ModeInfo where
  modeBlockflag : Bool
  modeMapping : Nat
deriving Repr, DecidableEq

/-- The `FloorTypeZero` struct of `src/header.rs`.  The
`cached_bark_cos_omega` float cache is pure precomputation for floor-0 curve
synthesis and is not modelled. -/
structure FloorTypeZero where
  floor0Order : Nat
  floor0Rate : Nat
  floor0BarkMapSize : Nat
  floor0AmplitudeBits : Nat
  floor0AmplitudeOffset : Nat
  floor0NumberOfBooks : Nat
  floor0BookList : List Nat
deriving Repr, DecidableEq

/-- The `FloorTypeOne` struct of `src/header.rs` (subclass books are `i16`
values: `-1` marks an absent book). -/
structure FloorTypeOne where
  floor1Multiplier : Nat
  floor1PartitionClass : List Nat
  floor1ClassDimensions : List Nat
  floor1ClassSubclasses : List Nat
  floor1SubclassBooks : List (List Int)
  floor1ClassMasterbooks : List Nat
  floor1XList : List Nat
  floor1XListSorted : List (Nat × Nat)
deriving Repr, DecidableEq

/-- The `Floor` enum of `src/header.rs`. -/
inductive Floor where
  | typeZero (fl : FloorTypeZero)
  | typeOne (fl : FloorTypeOne)
deriving Repr, DecidableEq

/-- The `SetupHeader` struct of `src/header.rs`. -/
structure SetupHeader where
  codebooks : List Codebook
  floors : List Floor
  residues : List Residue
  mappings : List Mapping
  modes : List ModeInfo

/-- The `IdentHeader` struct of `src/header.rs` (the `cached_bs_derived`
window/twiddle float cache is not modelled). -/
structure IdentHeader where
  audioChannels : Nat
  audioSampleRate : Nat
  bitrateMaximum : Int
  bitrateNominal : Int
  bitrateMinimum : Int
  blocksize0 : Nat
  blocksize1 : Nat
deriving Repr, DecidableEq

/-- `try!`-style lift from the bitpacking layer into header decoding: the `()`
error becomes `EndOfPacket` (the `From<()> for HeaderReadError` impl). -/
def hdrTry (r : Except Unit Nat × BitpackCursor) :
    Except HeaderReadError (Nat × BitpackCursor) :=
  match r with
  | (Except.ok v, c) => Except.ok (v, c)
  | (Except.error _, _) => Except.error HeaderReadError.endOfPacket

/-- The book-list loop of the floor-0 arm of `read_floor`
(lines 787-793 of `src/header.rs`): each entry is an 8-bit read checked with
`if value as u16 > codebook_cnt` — note `>` rather than `>=`. -/
def readFloor0Books : Nat → Nat → BitpackCursor →
    Except HeaderReadError (List Nat × BitpackCursor)
  | 0, _, c => Except.ok ([], c)
  | n + 1, codebookCnt, c => do
    let (value, c) ← hdrTry (bpcRead 8 1 c)
    if codebookCnt < value then Except.error HeaderReadError.headerBadFormat
    else do
      let (rest, cEnd) ← readFloor0Books n codebookCnt c
      Except.ok (value :: rest, cEnd)

/-- The `0 =>` arm of `read_floor` (lines 770-808 of `src/header.rs`),
entered after the 16-bit floor type has been consumed. -/
def readFloorType0 (rdr : BitpackCursor) (codebookCnt : Nat) :
    Except HeaderReadError (FloorTypeZero × BitpackCursor) := do
  let (floor0Order, c) ← hdrTry (bpcRead 8 1 rdr)
  let (floor0Rate, c) ← hdrTry (bpcRead 16 2 c)
  let (floor0BarkMapSize, c) ← hdrTry (bpcRead 16 2 c)
  let (floor0AmplitudeBits, c) ← hdrTry (bpcRead 6 0 c)
  if 64 < floor0AmplitudeBits then Except.error HeaderReadError.headerBadFormat
  else do
    let (floor0AmplitudeOffset, c) ← hdrTry (bpcRead 8 1 c)
    let (nb, c) ← hdrTry (bpcRead 4 0 c)
    let floor0NumberOfBooks := nb + 1
    let (floor0BookList, c) ← readFloor0Books floor0NumberOfBooks codebookCnt c
    Except.ok (⟨floor0Order, floor0Rate, floor0BarkMapSize, floor0AmplitudeBits,
      floor0AmplitudeOffset, floor0NumberOfBooks, floor0BookList⟩, c)

/-! ## Audio packet decoding (`src/audio.rs`) -/

/-- The `AudioReadError` enum of `src/audio.rs`. -/
inductive AudioReadError where
  | endOfPacket
  | audioBadFormat
  | audioIsHeader
  | bufferNotAddressable
deriving Repr, DecidableEq

/-- Steps 1-2 of `read_audio_packet_generic` (lines 923-932 of
`src/audio.rs`): the header bit, the mode number (width
`ilog(modes.len() - 1)`), and the checked `setup.modes.get(...)` lookup whose
`None` arm returns `AudioBadFormat`.  An error here is the return value of
the whole function (every later step only adds further `try!`s). -/
def readAudioPacketGenericModeStage (setup : SetupHeader) (packet : List Nat) :
    Except AudioReadError ModeInfo :=
  let rdr : BitpackCursor := ⟨0, 0, packet⟩
  match readBitFlag rdr with
  | (Except.error _, _) => Except.error AudioReadError.endOfPacket
  | (Except.ok true, _) => Except.error AudioReadError.audioIsHeader
  | (Except.ok false, rdr) =>
    match readDynU (ilog (setup.modes.length - 1)) rdr with
    | (Except.error _, _) => Except.error AudioReadError.endOfPacket
    | (Except.ok modeNumber, _) =>
      match setup.modes.get? modeNumber with
      | some mode => Except.ok mode
      | none => Except.error AudioReadError.audioBadFormat

/-- The window-geometry block of `get_decoded_sample_count` (lines 890-907 of
`src/audio.rs`): `((left_win_start, left_win_end, left_n, left_n_use_bs1),
(right_win_start, right_win_end))`. -/
def previewWindowGeometry (ident : IdentHeader) (n : Nat) (blockflag : Bool)
    (pnwf : Option (Bool × Bool)) : (Nat × Nat × Nat × Bool) × (Nat × Nat) :=
  let windowCenter := n >>> 1
  let left :=
    if (match pnwf with | none => true | some pw => pw.1) then
      (0, windowCenter, n >>> 1, blockflag)
    else
      let bs0exp := 1 <<< ident.blocksize0
      ((n - bs0exp) >>> 2, (n + bs0exp) >>> 2, bs0exp >>> 1, false)
  let right :=
    if (match pnwf with | none => true | some pw => pw.2) then (windowCenter, n)
    else
      let bs0exp := 1 <<< ident.blocksize0
      ((n * 3 - bs0exp) >>> 2, (n * 3 + bs0exp) >>> 2)
  (left, right)

/-- The identical window-geometry block of `read_audio_packet_generic`
(lines 1058-1075 of `src/audio.rs`). -/
def decodeWindowGeometry (ident : IdentHeader) (n : Nat) (blockflag : Bool)
    (pnwf : Option (Bool × Bool)) : (Nat × Nat × Nat × Bool) × (Nat × Nat) :=
  let windowCenter := n >>> 1
  let left :=
    if (match pnwf with | none => true | some pw => pw.1) then
      (0, windowCenter, n >>> 1, blockflag)
    else
      let bs0exp := 1 <<< ident.blocksize0
      ((n - bs0exp) >>> 2, (n + bs0exp) >>> 2, bs0exp >>> 1, false)
  let right :=
    if (match pnwf with | none => true | some pw => pw.2) then (windowCenter, n)
    else
      let bs0exp := 1 <<< ident.blocksize0
      ((n * 3 - bs0exp) >>> 2, (n * 3 + bs0exp) >>> 2)
  (left, right)

/-- `get_decoded_sample_count` (lines 875-910 of `src/audio.rs`).  The result
is wrapped in an outer `Option`: `none` models the panic of the unchecked
`&setup.modes[mode_number as usize]` index when the mode number is out of
range.  (`setup.modes.len() as u64 - 1` cannot underflow for headers produced
by `read_header_setup`, which always yields at least one mode.) -/
def getDecodedSampleCount (ident : IdentHeader) (setup : SetupHeader)
    (packet : List Nat) : Option (Except AudioReadError Nat) :=
  let rdr : BitpackCursor := ⟨0, 0, packet⟩
  match readBitFlag rdr with
  | (Except.error _, _) => some (Except.error AudioReadError.endOfPacket)
  | (Except.ok true, _) => some (Except.error AudioReadError.audioIsHeader)
  | (Except.ok false, rdr) =>
    match readDynU (ilog (setup.modes.length - 1)) rdr with
    | (Except.error _, _) => some (Except.error AudioReadError.endOfPacket)
    | (Except.ok modeNumber, rdr) =>
      match setup.modes.get? modeNumber with
      | none => none
      | some mode =>
        let bs := if mode.modeBlockflag then ident.blocksize1 else ident.blocksize0
        let n := 1 <<< bs
        if mode.modeBlockflag then
          match readBitFlag rdr with
          | (Except.error _, _) => some (Except.error AudioReadError.endOfPacket)
          | (Except.ok prevFlag, rdr) =>
            match readBitFlag rdr with
            | (Except.error _, _) => some (Except.error AudioReadError.endOfPacket)
            | (Except.ok nextFlag, _) =>
              let g := previewWindowGeometry ident n mode.modeBlockflag
                (some (prevFlag, nextFlag))
              some (Except.ok (g.2.1 - g.1.1))
        else
          let g := previewWindowGeometry ident n mode.modeBlockflag none
          some (Except.ok (g.2.1 - g.1.1))

/-- The per-channel emitted sample count of `read_audio_packet_generic` in the
steady state (`PreviousWindowRight` primed, decode succeeds): steps 1-3
(lines 923-940), the window geometry (lines 1058-1075), and the final
`chan.truncate(right_win_start - left_win_start)` of line 1137 applied to the
length-`n` channel vector, i.e. `min (rws - lws) n` output samples. -/
def readAudioPacketSteadyLen (ident : IdentHeader) (setup : SetupHeader)
    (packet : List Nat) : Except AudioReadError Nat :=
  let rdr : BitpackCursor := ⟨0, 0, packet⟩
  match readBitFlag rdr with
  | (Except.error _, _) => Except.error AudioReadError.endOfPacket
  | (Except.ok true, _) => Except.error AudioReadError.audioIsHeader
  | (Except.ok false, rdr) =>
    match readDynU (ilog (setup.modes.length - 1)) rdr with
    | (Except.error _, _) => Except.error AudioReadError.endOfPacket
    | (Except.ok modeNumber, rdr) =>
      match setup.modes.get? modeNumber with
      | none => Except.error AudioReadError.audioBadFormat
      | some mode =>
        let bs := if mode.modeBlockflag then ident.blocksize1 else ident.blocksize0
        let n := 1 <<< bs
        if mode.modeBlockflag then
          match readBitFlag rdr with
          | (Except.error _, _) => Except.error AudioReadError.endOfPacket
          | (Except.ok prevFlag, rdr) =>
            match readBitFlag rdr with
            | (Except.error _, _) => Except.error AudioReadError.endOfPacket
            | (Except.ok nextFlag, _) =>
              let g := decodeWindowGeometry ident n mode.modeBlockflag
                (some (prevFlag, nextFlag))
              Except.ok (min (g.2.1 - g.1.1) n)
        else
          let g := decodeWindowGeometry ident n mode.modeBlockflag none
          Except.ok (min (g.2.1 - g.1.1) n)

/-- C1 (evaluation at the failing input): with exactly one codebook
(`codebook_cnt = 1`, valid indices `< 1`), the floor-0 arm of `read_floor`
accepts the packet bytes `[1,0,0,0,0,1,0,4,0]` — order 1, rate 0, bark-map 0,
amplitude bits 1, offset 0, one book with index byte 1 — and stores the
out-of-range book index 1, because the bound check reads
`value as u16 > codebook_cnt` instead of `>=`.  The claim that every cited
book index is strictly below the codebook count is violated here. -/
theorem claim_c1_floor0_accepts_out_of_range_book :
    (readFloorType0 ⟨0, 0, [1, 0, 0, 0, 0, 1, 0, 4, 0]⟩ 1).map
      (fun p => p.1.floor0BookList) = Except.ok [1] ∧ ¬ (1 : Nat) < 1 :=
  ⟨rfl, by omega⟩

/-- C2 (evaluation at the failing input): for a classification whose cascade
bitmap is `00000000₂` with bit 7 set (`vals_used = 128`), `read_book` consumes
no bytes at all — even on an empty packet with an empty codebook list, where
any book read would have failed — because its loop `for i in 0 .. 7` visits
bits 0–6 only; yet `get_val 7` afterwards reports `Some 0`, a pass-book index
that was never read from the stream nor validated. -/
theorem claim_c2_bit7_passbook_never_read :
    ResidueBook.readBook ⟨0, 0, []⟩ 128 [] =
      Except.ok (⟨128, [0, 0, 0, 0, 0, 0, 0, 0]⟩, ⟨0, 0, []⟩) ∧
    ResidueBook.getVal ⟨128, [0, 0, 0, 0, 0, 0, 0, 0]⟩ 7 = some (some 0) :=
  ⟨rfl, rfl⟩

/-- C3 (evaluation at the failing input): with three modes the mode number is
read 2 bits wide; on the packet `[6]` (audio bit 0, mode number 3 ≥ 3)
`read_audio_packet_generic` returns `AudioBadFormat` via its checked
`setup.modes.get(...)` lookup, but `get_decoded_sample_count` indexes
`setup.modes[mode_number]` directly and panics (modelled as `none`) instead of
returning `AudioBadFormat`. -/
theorem claim_c3_preview_panics_on_out_of_range_mode :
    readAudioPacketGenericModeStage
        ⟨[], [], [], [], [⟨false, 0⟩, ⟨false, 0⟩, ⟨false, 0⟩]⟩ [6] =
      Except.error AudioReadError.audioBadFormat ∧
    getDecodedSampleCount ⟨2, 44100, 0, 0, 0, 8, 11⟩
        ⟨[], [], [], [], [⟨false, 0⟩, ⟨false, 0⟩, ⟨false, 0⟩]⟩ [6] = none :=
  ⟨rfl, rfl⟩

theorem previewWindowGeometry_eq_decode :
    previewWindowGeometry = decodeWindowGeometry := rfl

theorem decodeWindowGeometry_right_le (ident : IdentHeader) (n : Nat)
    (bf : Bool) (pnwf : Option (Bool × Bool)) :
    (decodeWindowGeometry ident n bf pnwf).2.1 ≤ n := by
  unfold decodeWindowGeometry
  dsimp only
  split
  · simp only [Nat.shiftRight_eq_div_pow]
    omega
  · simp only [Nat.shiftRight_eq_div_pow]
    generalize (1 <<< ident.blocksize0 : Nat) = e
    omega

/-- C4: whenever the steady-state decode path emits `l` samples per channel
(`readAudioPacketSteadyLen` models steps 1-3, the window geometry, and the
`truncate(right_win_start - left_win_start)` of a length-`n` channel under a
primed `PreviousWindowRight`), `get_decoded_sample_count` on the same packet
returns exactly `l` (and in particular does not panic). -/
theorem claim_c4_preview_matches_decoded_len (ident : IdentHeader)
    (setup : SetupHeader) (packet : List Nat) (l : Nat)
    (h : readAudioPacketSteadyLen ident setup packet = Except.ok l) :
    getDecodedSampleCount ident setup packet = some (Except.ok l) := by
  unfold readAudioPacketSteadyLen at h
  unfold getDecodedSampleCount
  dsimp only at h ⊢
  rcases hE1 : readBitFlag ⟨0, 0, packet⟩ with ⟨r1, c1⟩
  rw [hE1] at h
  cases r1 with
  | error e => simp at h
  | ok b1 =>
    cases b1 with
    | true => simp at h
    | false =>
      dsimp only at h ⊢
      rcases hE2 : readDynU (ilog (setup.modes.length - 1)) c1 with ⟨r2, c2⟩
      rw [hE2] at h
      cases r2 with
      | error e => simp at h
      | ok modeNumber =>
        dsimp only at h ⊢
        rcases hM : setup.modes.get? modeNumber with _ | mode
        · rw [hM] at h
          simp at h
        · rw [hM] at h
          dsimp only at h ⊢
          cases hbf : mode.modeBlockflag
          · rw [hbf] at h
            simp only [Bool.false_eq_true, if_false] at h ⊢
            rw [previewWindowGeometry_eq_decode]
            rw [Except.ok.injEq] at h
            subst h
            rw [Nat.min_eq_left
              (le_trans (Nat.sub_le _ _) (decodeWindowGeometry_right_le _ _ _ _))]
          · rw [hbf] at h
            simp only [if_true] at h ⊢
            rcases hE3 : readBitFlag c2 with ⟨r3, c3⟩
            rw [hE3] at h
            cases r3 with
            | error e => simp at h
            | ok prevFlag =>
              dsimp only at h ⊢
              rcases hE4 : readBitFlag c3 with ⟨r4, c4⟩
              rw [hE4] at h
              cases r4 with
              | error e => simp at h
              | ok nextFlag =>
                dsimp only at h ⊢
                rw [previewWindowGeometry_eq_decode]
                rw [Except.ok.injEq] at h
                subst h
                rw [Nat.min_eq_left
                  (le_trans (Nat.sub_le _ _) (decodeWindowGeometry_right_le _ _ _ _))]

/-- Witness for C4: a one-mode short-block setup where the packet `[0]` emits
32 samples per channel and the preview agrees. -/
theorem claim_c4_witness :
    getDecodedSampleCount ⟨2, 44100, 0, 0, 0, 6, 6⟩
      ⟨[], [], [], [], [⟨false, 0⟩]⟩ [0] = some (Except.ok 32) :=
  claim_c4_preview_matches_decoded_len ⟨2, 44100, 0, 0, 0, 6, 6⟩
    ⟨[], [], [], [], [⟨false, 0⟩]⟩ [0] 32 rfl

/-- The fresh-stream (`pwr.data == None`) branch of the overlap-add stage of
`read_audio_packet_generic` (lines 1142-1156 of `src/audio.rs`): for every
channel, `chan[right_win_start .. right_win_end)` is pushed element by element
into the future `PreviousWindowRight`, and the channel output is truncated to
length 0.  Returns `(outputs, future_prev_halves)`; the caller then stores the
second component into `pwr.data`.  The indexing `chan[i]` is in bounds in the
source (`right_win_end ≤ n = chan.len()`); modelled with `getD _ 0`. -/
def overlapFreshStage (audioSpectri : List (List ℚ)) (rws rwe : Nat) :
    List (List ℚ) × List (List ℚ) :=
  (audioSpectri.map (fun chan => chan.take 0),
   audioSpectri.map (fun chan =>
     (List.range' rws (rwe - rws)).map (fun i => chan.getD i 0)))

theorem range'_map_getD_eq_drop_take {α : Type} (chan : List α) (d : α)
    (rws k : Nat) (h : rws + k ≤ chan.length) :
    (List.range' rws k).map (fun i => chan.getD i d) =
      (chan.drop rws).take k := by
  induction k generalizing rws with
  | zero => simp
  | succ k ih =>
    have hlt : rws < chan.length := by omega
    rw [List.range'_succ, List.map_cons,
      List.getD_eq_getElem chan d hlt,
      List.drop_eq_getElem_cons hlt, List.take_succ_cons]
    congr 1
    exact ih (rws + 1) (by omega)

/-- C7: on a fresh stream (`PreviousWindowRight` holds no data), the overlap
stage of `read_audio_packet_generic` truncates every channel's output to zero
samples, and the new `PreviousWindowRight` holds exactly the packet's
right-window region `[right_win_start, right_win_end)` of every channel, so
the next packet's decode is primed. -/
theorem claim_c7_fresh_stream_empty_output_primes_pwr
    (spectri : List (List ℚ)) (rws rwe : Nat)
    (h : ∀ chan ∈ spectri, rwe ≤ chan.length) :
    (overlapFreshStage spectri rws rwe).1 = spectri.map (fun _ => []) ∧
    (overlapFreshStage spectri rws rwe).2 =
      spectri.map (fun chan => (chan.drop rws).take (rwe - rws)) := by
  constructor
  · simp [overlapFreshStage]
  · unfold overlapFreshStage
    dsimp only
    apply List.map_congr_left
    intro chan hc
    by_cases hle : rws ≤ rwe
    · exact range'_map_getD_eq_drop_take chan 0 rws (rwe - rws)
        (by have := h chan hc; omega)
    · have : rwe - rws = 0 := by omega
      simp [this]

/-- Witness for C7: a single length-4 channel, right window `[2, 4)`. -/
theorem claim_c7_witness :
    (overlapFreshStage [[1, 2, 3, 4]] 2 4).1 = [[]] ∧
    (overlapFreshStage [[1, 2, 3, 4]] 2 4).2 = [[3, 4]] := by
  have hmain := claim_c7_fresh_stream_empty_output_primes_pwr
    [[1, 2, 3, 4]] 2 4 (by intro chan hc; simp at hc; subst hc; simp)
  exact ⟨hmain.1.trans (by rfl), hmain.2.trans (by rfl)⟩

/-! ## Sample conversion (`src/samples.rs`) -/

/-- Truncation toward zero, the semantics of Rust's in-range `as i16` cast on
a float. -/
def truncTowardZero (q : ℚ) : Int := if 0 ≤ q then ⌊q⌋ else ⌈q⌉

/-- `<i16 as Sample>::from_float` (lines 92-103 of `src/samples.rs`):
`fl = fl * 32768.0; if fl > 32767. { 32767 } else if fl < -32768. { -32768 }
else { fl as i16 }`.  The float input is carried as its exact rational value:
multiplication of an `f32` by the power of two 32768 is exact (no rounding
occurs, and no overflow for the magnitudes a decoder produces), the
comparisons are exact, and the in-range `as i16` cast truncates toward
zero. -/
def i16FromFloat (q : ℚ) : Int :=
  let fl := q * 32768
  if 32767 < fl then 32767
  else if fl < -32768 then -32768
  else truncTowardZero fl

/-- The conversion as the spec words it (§6): `clip(round(f · 32768), −32768,
32767)`, the scaled value "rounded to the nearest integer and then clamped"
(`round` is Mathlib's round-to-nearest, half away from tie irrelevant
below). -/
def i16FromFloatSpec (q : ℚ) : Int :=
  max (-32768) (min 32767 (round (q * 32768)))

/-- C8 counterexample: at the exactly representable sample `f = 3·2⁻¹⁷`
(`f · 32768 = 3/4`), the code truncates to 0 while the spec's
`clip(round(f·32768), ...)` yields 1, so the claimed conversion law fails. -/
theorem claim_c8_counterexample :
    i16FromFloat (3 / 131072) = 0 ∧ i16FromFloatSpec (3 / 131072) = 1 ∧
    i16FromFloat (3 / 131072) ≠ i16FromFloatSpec (3 / 131072) := by
  refine ⟨?_, ?_, ?_⟩ <;>
    norm_num [i16FromFloat, i16FromFloatSpec, truncTowardZero, round_eq]

/-- C8 amended: the i16 conversion is
`clip(trunc(f · 32768), −32768, 32767)` — the scaled value is truncated
toward zero (not rounded to nearest) and clamped to the i16 range. -/
theorem claim_c8_amended_trunc_clip (q : ℚ) :
    i16FromFloat q = max (-32768) (min 32767 (truncTowardZero (q * 32768))) := by
  unfold i16FromFloat truncTowardZero
  dsimp only
  by_cases h1 : (32767 : ℚ) < q * 32768
  · rw [if_pos h1]
    have h0 : (0 : ℚ) ≤ q * 32768 := le_trans (by norm_num) (le_of_lt h1)
    rw [if_pos h0]
    have hf : (32767 : Int) ≤ ⌊q * 32768⌋ :=
      Int.le_floor.mpr (by exact_mod_cast le_of_lt h1)
    omega
  · rw [if_neg h1]
    by_cases h2 : q * 32768 < (-32768 : ℚ)
    · rw [if_pos h2]
      have h0 : ¬ (0 : ℚ) ≤ q * 32768 :=
        not_le.mpr (lt_trans h2 (by norm_num))
      rw [if_neg h0]
      have hc : ⌈q * 32768⌉ ≤ (-32768 : Int) :=
        Int.ceil_le.mpr (by exact_mod_cast le_of_lt h2)
      omega
    · rw [if_neg h2]
      by_cases h0 : (0 : ℚ) ≤ q * 32768
      · rw [if_pos h0]
        have hf0 : (⌊q * 32768⌋ : ℚ) ≤ 32767 :=
          le_trans (Int.floor_le _) (le_of_not_lt h1)
        have hf1 : ⌊q * 32768⌋ ≤ (32767 : Int) := by exact_mod_cast hf0
        have hf2 : (0 : Int) ≤ ⌊q * 32768⌋ := Int.floor_nonneg.mpr h0
        omega
      · rw [if_neg h0]
        have hc1 : ⌈q * 32768⌉ ≤ (0 : Int) :=
          Int.ceil_le.mpr (by exact_mod_cast le_of_not_le h0)
        have hc0 : (-32768 : ℚ) ≤ (⌈q * 32768⌉ : ℚ) :=
          le_trans (le_of_not_lt h2) (Int.le_ceil _)
        have hc2 : (-32768 : Int) ≤ ⌈q * 32768⌉ := by exact_mod_cast hc0
        omega

/-! ## Neighbor search (`extr_neighbor`, `src/audio.rs` lines 255-294) -/

/-- `Iterator::position`: the index of the first element satisfying `p`. -/
def position {α : Type} (p : α → Bool) : List α → Option Nat
  | [] => none
  | x :: xs => if p x then some 0 else (position p xs).map (· + 1)

/-- `Iterator::max_by`: per the Rust documentation, "if several elements are
equally maximum, the last element is returned" — realised by a fold that
keeps the accumulator only when it is strictly greater. -/
def maxByLast {α : Type} (cmp : α → α → Ordering) : List α → Option α
  | [] => none
  | x :: xs =>
    some (xs.foldl (fun acc y => if cmp acc y = Ordering.gt then acc else y) x)

/-- `extr_neighbor` (lines 255-285 of `src/audio.rs`): find the first prefix
index whose value is `smaller` than `v[max_idx]`, then take, among the
enumerated reversed remainder filtered by the same predicate, the `max_by`
element (the `rev()` makes the earliest maximal offset win).  The source's
`panic!` when no qualifying index exists is modelled as `none`. -/
def extrNeighbor (cmp : Nat → Nat → Ordering) (v : List Nat) (maxIdx : Nat) :
    Option (Nat × Nat) :=
  let bound := v.getD maxIdx 0
  let pref := v.take maxIdx
  match position (fun val => decide (cmp val bound = Ordering.lt)) pref with
  | none => none
  | some minIdx =>
    match maxByLast (fun p q => cmp p.2 q.2)
        (((pref.drop minIdx).enum.reverse).filter
          (fun p => decide (cmp p.2 bound = Ordering.lt))) with
    | some om => some (minIdx + om.1, om.2)
    | none => some (minIdx + 0, v.getD minIdx 0)

/-- `low_neighbor` (lines 287-289): `extr_neighbor` with the natural order. -/
def lowNeighbor (v : List Nat) (x : Nat) : Option (Nat × Nat) :=
  extrNeighbor (fun a b => compare a b) v x

/-- `high_neighbor` (lines 292-294): `extr_neighbor` with the order
reversed. -/
def highNeighbor (v : List Nat) (x : Nat) : Option (Nat × Nat) :=
  extrNeighbor (fun a b => compare b a) v x

theorem position_some_spec {α : Type} (p : α → Bool) (d : α) :
    ∀ (l : List α) (i : Nat), position p l = some i →
      i < l.length ∧ p (l.getD i d) = true ∧ ∀ k, k < i → p (l.getD k d) = false
  | [], i, h => by simp [position] at h
  | x :: xs, i, h => by
    simp only [position] at h
    by_cases hx : p x = true
    · rw [if_pos hx] at h
      injection h with h0
      subst h0
      exact ⟨by simp, by simpa using hx, fun k hk => absurd hk (by omega)⟩
    · rw [if_neg hx] at h
      rcases hmap : position p xs with _ | j
      · rw [hmap] at h
        simp at h
      · rw [hmap, Option.map_some'] at h
        injection h with h0
        subst h0
        obtain ⟨h1, h2, h3⟩ := position_some_spec p d xs j hmap
        refine ⟨by simpa using h1, by simpa using h2, ?_⟩
        intro k hk
        cases k with
        | zero => simpa using hx
        | succ k' => simpa using h3 k' (by omega)

theorem position_none_spec {α : Type} (p : α → Bool) :
    ∀ l : List α, position p l = none → ∀ x ∈ l, p x = false
  | [], _, x, hx => by simp at hx
  | y :: ys, h, x, hx => by
    simp only [position] at h
    by_cases hy : p y = true
    · rw [if_pos hy] at h
      simp at h
    · rw [if_neg hy] at h
      rcases List.mem_cons.mp hx with rfl | hx'
      · simpa using hy
      · have h' : position p ys = none := by
          rcases hmap : position p ys with _ | j
          · rfl
          · rw [hmap, Option.map_some'] at h
            simp at h
        exact position_none_spec p ys h' x hx'

/-- The fold underlying `max_by` in `extr_neighbor` (comparing pair values). -/
def maxFold (cmp : Nat → Nat → Ordering) (x : Nat × Nat)
    (xs : List (Nat × Nat)) : Nat × Nat :=
  xs.foldl (fun acc y => if cmp acc.2 y.2 = Ordering.gt then acc else y) x

theorem maxFold_spec (cmp : Nat → Nat → Ordering) (lt : Nat → Nat → Prop)
    (hgt : ∀ a b, (cmp a b = Ordering.gt) ↔ lt b a)
    (hirr : ∀ a, ¬ lt a a)
    (htrans : ∀ a b c, lt a b → lt b c → lt a c)
    (hneg : ∀ a b c, ¬ lt a b → ¬ lt b c → ¬ lt a c) :
    ∀ (xs : List (Nat × Nat)) (x : Nat × Nat),
      ((x :: xs).Pairwise (fun p q => q.1 < p.1)) →
      maxFold cmp x xs ∈ x :: xs ∧
      (∀ z ∈ x :: xs, ¬ lt (maxFold cmp x xs).2 z.2) ∧
      (∀ z ∈ x :: xs, z.1 < (maxFold cmp x xs).1 → lt z.2 (maxFold cmp x xs).2) := by
  intro xs
  induction xs with
  | nil =>
    intro x _
    refine ⟨by simp [maxFold], ?_, ?_⟩
    · intro z hz
      rw [List.mem_singleton] at hz
      subst hz
      simpa [maxFold] using hirr z.2
    · intro z hz hz1
      rw [List.mem_singleton] at hz
      subst hz
      simp [maxFold] at hz1
  | cons y ys ih =>
    intro x hdesc
    obtain ⟨hx, hrest⟩ := List.pairwise_cons.mp hdesc
    obtain ⟨hy, hys⟩ := List.pairwise_cons.mp hrest
    by_cases hc : cmp x.2 y.2 = Ordering.gt
    · have hm : maxFold cmp x (y :: ys) = maxFold cmp x ys := by
        simp [maxFold, hc]
      have hpx : (x :: ys).Pairwise (fun p q => q.1 < p.1) :=
        List.pairwise_cons.mpr ⟨fun z hz => hx z (List.mem_cons_of_mem _ hz), hys⟩
      obtain ⟨hmem, hmax, hfirst⟩ := ih x hpx
      have hyx : lt y.2 x.2 := (hgt _ _).mp hc
      rw [hm]
      refine ⟨?_, ?_, ?_⟩
      · rcases List.mem_cons.mp hmem with h | h
        · rw [h]
          exact List.mem_cons_self _ _
        · exact List.mem_cons_of_mem _ (List.mem_cons_of_mem _ h)
      · intro z hz
        rcases List.mem_cons.mp hz with rfl | hz'
        · exact hmax _ (List.mem_cons_self _ _)
        · rcases List.mem_cons.mp hz' with rfl | hz''
          · intro hcon
            exact hmax _ (List.mem_cons_self _ _) (htrans _ _ _ hcon hyx)
          · exact hmax _ (List.mem_cons_of_mem _ hz'')
      · intro z hz hzlt
        rcases List.mem_cons.mp hz with rfl | hz'
        · exact hfirst _ (List.mem_cons_self _ _) hzlt
        · rcases List.mem_cons.mp hz' with rfl | hz''
          · rcases List.mem_cons.mp hmem with h | h
            · rw [h] at hzlt ⊢
              exact hyx
            · have := hy _ h
              omega
          · exact hfirst _ (List.mem_cons_of_mem _ hz'') hzlt
    · have hm : maxFold cmp x (y :: ys) = maxFold cmp y ys := by
        simp [maxFold, hc]
      obtain ⟨hmem, hmax, hfirst⟩ := ih y hrest
      have hnyx : ¬ lt y.2 x.2 := fun hcon => hc ((hgt _ _).mpr hcon)
      rw [hm]
      refine ⟨?_, ?_, ?_⟩
      · exact List.mem_cons_of_mem _ hmem
      · intro z hz
        rcases List.mem_cons.mp hz with rfl | hz'
        · exact hneg _ _ _ (hmax _ (List.mem_cons_self _ _)) hnyx
        · exact hmax _ hz'
      · intro z hz hzlt
        rcases List.mem_cons.mp hz with rfl | hz'
        · rcases List.mem_cons.mp hmem with h | h
          · rw [h] at hzlt
            have := hx _ (List.mem_cons_self _ _)
            omega
          · have := hx _ (List.mem_cons_of_mem _ h)
            omega
        · exact hfirst _ hz' hzlt

theorem enum_pairwise_fst_lt {α : Type} (l : List α) :
    l.enum.Pairwise (fun p q => p.1 < q.1) := by
  rw [List.pairwise_iff_getElem]
  intro i j hi hj hij
  rw [List.enum_length] at hi hj
  simp only [List.getElem_enum]
  exact hij

theorem cands_pairwise_desc {α : Type} (l : List α) (p : Nat × α → Bool) :
    ((l.enum.reverse).filter p).Pairwise (fun a b => b.1 < a.1) := by
  apply List.Pairwise.filter
  rw [List.pairwise_reverse]
  exact enum_pairwise_fst_lt l

theorem extrNeighbor_spec
    (cmp : Nat → Nat → Ordering) (lt : Nat → Nat → Prop)
    (hlt : ∀ a b, (cmp a b = Ordering.lt) ↔ lt a b)
    (hgt : ∀ a b, (cmp a b = Ordering.gt) ↔ lt b a)
    (hirr : ∀ a, ¬ lt a a)
    (htrans : ∀ a b c, lt a b → lt b c → lt a c)
    (hneg : ∀ a b c, ¬ lt a b → ¬ lt b c → ¬ lt a c)
    (v : List Nat) (i : Nat) (hi : i < v.length)
    (hex : ∃ j, j < i ∧ lt (v.getD j 0) (v.getD i 0)) :
    ∃ jw : Nat × Nat, extrNeighbor cmp v i = some jw ∧ jw.1 < i ∧
      v.getD jw.1 0 = jw.2 ∧ lt jw.2 (v.getD i 0) ∧
      (∀ k, k < i → lt (v.getD k 0) (v.getD i 0) → ¬ lt jw.2 (v.getD k 0)) ∧
      (∀ k, k < jw.1 → lt (v.getD k 0) (v.getD i 0) → lt (v.getD k 0) jw.2) := by
  have hpl : (v.take i).length = i := by
    rw [List.length_take]
    omega
  have hprefget : ∀ k, k < i → (v.take i).getD k 0 = v.getD k 0 := by
    intro k hk
    have h1 : k < (v.take i).length := by rw [hpl]; exact hk
    have h2 : k < v.length := by omega
    rw [List.getD_eq_getElem _ _ h1, List.getD_eq_getElem _ _ h2]
    exact List.getElem_take v
  unfold extrNeighbor
  dsimp only
  rcases hpos : position
      (fun val => decide (cmp val (v.getD i 0) = Ordering.lt)) (v.take i)
    with _ | minIdx
  · exfalso
    obtain ⟨j, hj, hjlt⟩ := hex
    have h1 : j < (v.take i).length := by rw [hpl]; omega
    have hjm : (v.take i).getD j 0 ∈ v.take i := by
      rw [List.getD_eq_getElem _ _ h1]
      exact List.getElem_mem h1
    have hp := position_none_spec _ _ hpos _ hjm
    rw [hprefget j hj] at hp
    rw [decide_eq_false_iff_not] at hp
    exact hp ((hlt _ _).mpr hjlt)
  · dsimp only
    obtain ⟨hmlt', hmp, hmfirst⟩ := position_some_spec _ 0 _ _ hpos
    rw [hpl] at hmlt'
    have hminP : lt (v.getD minIdx 0) (v.getD i 0) := by
      simp only [decide_eq_true_eq] at hmp
      rw [hprefget minIdx hmlt'] at hmp
      exact (hlt _ _).mp hmp
    have hfirstF : ∀ k, k < minIdx → ¬ lt (v.getD k 0) (v.getD i 0) := by
      intro k hk
      have hf := hmfirst k hk
      simp only [decide_eq_false_iff_not] at hf
      rw [hprefget k (by omega)] at hf
      intro hcon
      exact hf ((hlt _ _).mpr hcon)
    have htaillen : ((v.take i).drop minIdx).length = i - minIdx := by
      rw [List.length_drop, hpl]
    have htailget : ∀ k, k < i - minIdx →
        ((v.take i).drop minIdx).getD k 0 = v.getD (minIdx + k) 0 := by
      intro k hk
      have h1 : k < ((v.take i).drop minIdx).length := by rw [htaillen]; exact hk
      have h2 : minIdx + k < (v.take i).length := by rw [hpl]; omega
      rw [List.getD_eq_getElem _ _ h1, List.getElem_drop,
        ← List.getD_eq_getElem (v.take i) 0 h2, hprefget _ (by omega)]
    have hcand_mem : ∀ k z,
        ((k, z) ∈ (((v.take i).drop minIdx).enum.reverse).filter
          (fun p => decide (cmp p.2 (v.getD i 0) = Ordering.lt))) ↔
        (k < i - minIdx ∧ v.getD (minIdx + k) 0 = z ∧ lt z (v.getD i 0)) := by
      intro k z
      rw [List.mem_filter, List.mem_reverse, List.mk_mem_enum_iff_getElem?,
        List.getElem?_eq_some]
      constructor
      · rintro ⟨⟨hklen, hkeq⟩, hp⟩
        simp only [decide_eq_true_eq] at hp
        have hklen' : k < i - minIdx := by rw [htaillen] at hklen; exact hklen
        refine ⟨hklen', ?_, (hlt _ _).mp hp⟩
        rw [← htailget k hklen', List.getD_eq_getElem _ _ hklen]
        exact hkeq
      · rintro ⟨hk, hz, hzlt⟩
        have hklen : k < ((v.take i).drop minIdx).length := by
          rw [htaillen]; exact hk
        refine ⟨⟨hklen, ?_⟩, by simp only [decide_eq_true_eq]; exact (hlt _ _).mpr hzlt⟩
        have hg := htailget k hk
        rw [List.getD_eq_getElem _ _ hklen] at hg
        rw [hg]
        exact hz
    have hhead : (0, v.getD (minIdx + 0) 0) ∈
        (((v.take i).drop minIdx).enum.reverse).filter
          (fun p => decide (cmp p.2 (v.getD i 0) = Ordering.lt)) := by
      rw [hcand_mem]
      exact ⟨by omega, rfl, by simpa using hminP⟩
    rcases hC : (((v.take i).drop minIdx).enum.reverse).filter
        (fun p => decide (cmp p.2 (v.getD i 0) = Ordering.lt))
      with _ | ⟨chead, ctail⟩
    · rw [hC] at hhead
      simp at hhead
    · have hdesc := cands_pairwise_desc ((v.take i).drop minIdx)
        (fun p => decide (cmp p.2 (v.getD i 0) = Ordering.lt))
      rw [hC] at hdesc
      obtain ⟨hmem, hmax, hfirst⟩ :=
        maxFold_spec cmp lt hgt hirr htrans hneg ctail chead hdesc
      have hmcands : ((maxFold cmp chead ctail).1, (maxFold cmp chead ctail).2) ∈
          (((v.take i).drop minIdx).enum.reverse).filter
            (fun p => decide (cmp p.2 (v.getD i 0) = Ordering.lt)) := by
        rw [hC]
        simpa using hmem
      rw [hcand_mem] at hmcands
      obtain ⟨hm1, hm2, hm3⟩ := hmcands
      rw [hC]
      refine ⟨(minIdx + (maxFold cmp chead ctail).1, (maxFold cmp chead ctail).2),
        rfl, by omega, hm2, hm3, ?_, ?_⟩
      · intro k hk hklt
        by_cases hkm : k < minIdx
        · exact absurd hklt (hfirstF k hkm)
        · have hz : (k - minIdx, v.getD k 0) ∈
              (((v.take i).drop minIdx).enum.reverse).filter
                (fun p => decide (cmp p.2 (v.getD i 0) = Ordering.lt)) := by
            rw [hcand_mem]
            refine ⟨by omega, ?_, hklt⟩
            rw [Nat.add_sub_cancel' (le_of_not_lt hkm)]
          rw [hC] at hz
          exact hmax _ hz
      · intro k hk hklt
        by_cases hkm : k < minIdx
        · exact absurd hklt (hfirstF k hkm)
        · have hz : (k - minIdx, v.getD k 0) ∈
              (((v.take i).drop minIdx).enum.reverse).filter
                (fun p => decide (cmp p.2 (v.getD i 0) = Ordering.lt)) := by
            rw [hcand_mem]
            refine ⟨by omega, ?_, hklt⟩
            rw [Nat.add_sub_cancel' (le_of_not_lt hkm)]
          rw [hC] at hz
          have hres := hfirst _ hz (by simp only []; omega)
          simpa using hres

/-- C6: whenever some prefix index qualifies, `low_neighbor(v, i)` returns a
pair `(j, v[j])` with `j < i`, `v[j]` the greatest prefix value below `v[i]`,
ties in value resolved to the earliest index; `high_neighbor` is symmetric
with the smallest prefix value above `v[i]`; and the listed test vectors are
reproduced. -/
theorem claim_c6_neighbor_rules :
    (∀ (v : List Nat) (i : Nat), i < v.length →
      (∃ j, j < i ∧ v.getD j 0 < v.getD i 0) →
      ∃ jw : Nat × Nat, lowNeighbor v i = some jw ∧ jw.1 < i ∧
        v.getD jw.1 0 = jw.2 ∧ jw.2 < v.getD i 0 ∧
        (∀ k, k < i → v.getD k 0 < v.getD i 0 → v.getD k 0 ≤ jw.2) ∧
        (∀ k, k < jw.1 → v.getD k 0 < v.getD i 0 → v.getD k 0 < jw.2)) ∧
    (∀ (v : List Nat) (i : Nat), i < v.length →
      (∃ j, j < i ∧ v.getD i 0 < v.getD j 0) →
      ∃ jw : Nat × Nat, highNeighbor v i = some jw ∧ jw.1 < i ∧
        v.getD jw.1 0 = jw.2 ∧ v.getD i 0 < jw.2 ∧
        (∀ k, k < i → v.getD i 0 < v.getD k 0 → jw.2 ≤ v.getD k 0) ∧
        (∀ k, k < jw.1 → v.getD i 0 < v.getD k 0 → jw.2 < v.getD k 0)) ∧
    highNeighbor [0, 128, 12, 46, 4, 8, 16, 23, 33, 70, 2, 6, 10, 14, 19, 28,
      39, 58, 90] 6 = some (3, 46) ∧
    highNeighbor [0, 128, 12, 46, 4, 8, 16, 23, 33, 70, 2, 6, 10, 14, 19, 28,
      39, 58, 90] 17 = some (9, 70) ∧
    highNeighbor [0, 128, 12, 46, 4, 8, 16, 23, 33, 70, 2, 6, 10, 14, 19, 28,
      39, 58, 90] 18 = some (1, 128) ∧
    lowNeighbor [1, 4, 2, 3, 6, 5] 3 = some (2, 2) ∧
    lowNeighbor [1, 4, 2, 3, 6, 5] 5 = some (1, 4) := by
  refine ⟨?_, ?_, by decide, by decide, by decide, by decide, by decide⟩
  · intro v i hi hex
    obtain ⟨jw, h1, h2, h3, h4, h5, h6⟩ :=
      extrNeighbor_spec (fun a b => compare a b) (· < ·)
        (fun _ _ => Nat.compare_eq_lt) (fun _ _ => Nat.compare_eq_gt)
        (fun a => by omega) (fun a b c => by omega) (fun a b c => by omega)
        v i hi hex
    exact ⟨jw, h1, h2, h3, h4,
      fun k hk hkl => Nat.le_of_not_lt (h5 k hk hkl), h6⟩
  · intro v i hi hex
    obtain ⟨jw, h1, h2, h3, h4, h5, h6⟩ :=
      extrNeighbor_spec (fun a b => compare b a) (fun a b => b < a)
        (fun _ _ => Nat.compare_eq_lt) (fun _ _ => Nat.compare_eq_gt)
        (fun a => by omega) (fun a b c => by omega) (fun a b c => by omega)
        v i hi hex
    exact ⟨jw, h1, h2, h3, h4,
      fun k hk hkl => Nat.le_of_not_lt (h5 k hk hkl), h6⟩

/-- Witness for C6: the general low/high neighbor properties instantiated on
`v = [1,4,2,3,6,5]` at `i = 3` (low) and `i = 2` (high). -/
theorem claim_c6_witness :
    (∃ jw : Nat × Nat, lowNeighbor [1, 4, 2, 3, 6, 5] 3 = some jw ∧ jw.1 < 3 ∧
      [1, 4, 2, 3, 6, 5].getD jw.1 0 = jw.2 ∧
      jw.2 < [1, 4, 2, 3, 6, 5].getD 3 0 ∧
      (∀ k, k < 3 → [1, 4, 2, 3, 6, 5].getD k 0 < [1, 4, 2, 3, 6, 5].getD 3 0 →
        [1, 4, 2, 3, 6, 5].getD k 0 ≤ jw.2) ∧
      (∀ k, k < jw.1 → [1, 4, 2, 3, 6, 5].getD k 0 < [1, 4, 2, 3, 6, 5].getD 3 0 →
        [1, 4, 2, 3, 6, 5].getD k 0 < jw.2)) ∧
    (∃ jw : Nat × Nat, highNeighbor [1, 4, 2, 3, 6, 5] 2 = some jw ∧ jw.1 < 2 ∧
      [1, 4, 2, 3, 6, 5].getD jw.1 0 = jw.2 ∧
      [1, 4, 2, 3, 6, 5].getD 2 0 < jw.2 ∧
      (∀ k, k < 2 → [1, 4, 2, 3, 6, 5].getD 2 0 < [1, 4, 2, 3, 6, 5].getD k 0 →
        jw.2 ≤ [1, 4, 2, 3, 6, 5].getD k 0) ∧
      (∀ k, k < jw.1 → [1, 4, 2, 3, 6, 5].getD 2 0 < [1, 4, 2, 3, 6, 5].getD k 0 →
        jw.2 < [1, 4, 2, 3, 6, 5].getD k 0)) :=
  ⟨claim_c6_neighbor_rules.1 [1, 4, 2, 3, 6, 5] 3 (by decide) ⟨2, by decide, by decide⟩,
   claim_c6_neighbor_rules.2.1 [1, 4, 2, 3, 6, 5] 2 (by decide) ⟨1, by decide, by decide⟩⟩

/-! ## Floor-1 curve synthesis (`src/audio.rs` lines 393-557) -/

/-- The final clamp loop of `floor_one_curve_compute_amplitude` (lines 432-435
of `src/audio.rs`): `*el = min(range as u32 - 1, *el)` for every entry of
`floor1_final_y`. -/
def floorOneClampFinalY (range : Nat) (ys : List Nat) : List Nat :=
  ys.map (fun el => min (range - 1) el)

/-- The loop of `render_line` (lines 516-525 of `src/audio.rs`): for each `x`
in `(x0+1) .. x1`, accumulate `err += ady`, step `y` by `sy` (consuming `adx`
from `err`) or by `base`, and push `y`. -/
def renderLineLoop (ady adx sy base : Int) : Nat → Int → Int → List Int
  | 0, _, _ => []
  | Nat.succ k, y, err =>
    if adx ≤ err + ady then
      (y + sy) :: renderLineLoop ady adx sy base k (y + sy) (err + ady - adx)
    else
      (y + base) :: renderLineLoop ady adx sy base k (y + base) (err + ady)

/-- `render_line` (lines 505-526 of `src/audio.rs`), returning the list of
values pushed into `v` (the caller appends them to its accumulator).  The
arithmetic is `i32` in the source; the values reached during floor-1
synthesis stay far below the `i32` range, so plain `Int` is a faithful
model. -/
def renderLine (x0 y0 x1 y1 : Int) : List Int :=
  let dy := y1 - y0
  let adx := x1 - x0
  let ady : Int := (dy.natAbs : Int)
  let base := Int.tdiv dy adx
  let sy := base + (if dy < 0 then -1 else 1)
  let ady2 := ady - (base.natAbs : Int) * adx
  y0 :: renderLineLoop ady2 adx sy base (x1 - x0 - 1).toNat y0 0

theorem renderLineLoop_mem (r adx s base : Int)
    (hadx : 0 < adx) (hr0 : 0 ≤ r) (hr1 : r < adx) :
    ∀ (k : Nat) (y err : Int), 0 ≤ err → err < adx →
      ∀ z ∈ renderLineLoop r adx (base + s) base k y err,
        ∃ t : Nat, 1 ≤ t ∧ (t : Int) ≤ (k : Int) ∧
          z = y + t * base + s * ((err + t * r) / adx) := by
  intro k
  induction k with
  | zero =>
    intro y err _ _ z hz
    simp [renderLineLoop] at hz
  | succ k ih =>
    intro y err he0 he1 z hz
    simp only [renderLineLoop] at hz
    by_cases hov : adx ≤ err + r
    · rw [if_pos hov] at hz
      rcases List.mem_cons.mp hz with rfl | hz'
      · refine ⟨1, le_refl 1, by push_cast; omega, ?_⟩
        have hq1 : (1 : Int) ≤ (err + r) / adx :=
          (Int.le_ediv_iff_mul_le hadx).mpr (by omega)
        have hq2 : (err + r) / adx < 2 :=
          (Int.ediv_lt_iff_lt_mul hadx).mpr (by omega)
        have hq : (err + r) / adx = 1 := by omega
        push_cast
        simp only [one_mul]
        rw [hq]
        ring
      · obtain ⟨t, ht1, ht2, hzeq⟩ :=
          ih (y + (base + s)) (err + r - adx) (by omega) (by omega) z hz'
        refine ⟨t + 1, by omega, by push_cast; omega, ?_⟩
        have hx : err + ((t : Int) + 1) * r = (err + r - adx + (t : Int) * r) + 1 * adx := by
          ring
        push_cast
        rw [hx, Int.add_mul_ediv_right _ _ (ne_of_gt hadx)]
        rw [hzeq]
        ring
    · rw [if_neg hov] at hz
      rcases List.mem_cons.mp hz with rfl | hz'
      · refine ⟨1, le_refl 1, by push_cast; omega, ?_⟩
        have hq : (err + r) / adx = 0 :=
          Int.ediv_eq_zero_of_lt (by omega) (by omega)
        push_cast
        simp only [one_mul]
        rw [hq]
        ring
      · obtain ⟨t, ht1, ht2, hzeq⟩ :=
          ih (y + base) (err + r) (by omega) (by omega) z hz'
        refine ⟨t + 1, by omega, by push_cast; omega, ?_⟩
        have hx : err + ((t : Int) + 1) * r = (err + r) + (t : Int) * r := by
          ring
        push_cast
        rw [hx, hzeq]
        ring

theorem renderLine_mem_bounds (x0 y0 x1 y1 : Int) (hadx : 0 < x1 - x0) :
    ∀ z ∈ renderLine x0 y0 x1 y1, min y0 y1 ≤ z ∧ z ≤ max y0 y1 := by
  intro z hz
  unfold renderLine at hz
  dsimp only at hz
  rcases List.mem_cons.mp hz with rfl | hz'
  · exact ⟨min_le_left _ _, le_max_left _ _⟩
  · by_cases hdy : 0 ≤ y1 - y0
    · -- ascending (or flat) line
      rw [if_neg (not_lt.mpr hdy)] at hz'
      have hbase : (y1 - y0).tdiv (x1 - x0) = (y1 - y0) / (x1 - x0) :=
        Int.tdiv_eq_ediv hdy (le_of_lt hadx)
      have hady : (((y1 - y0).natAbs : Int)) = y1 - y0 :=
        Int.natAbs_of_nonneg hdy
      have hbnn : 0 ≤ (y1 - y0) / (x1 - x0) :=
        Int.ediv_nonneg hdy (le_of_lt hadx)
      have hbabs : ((((y1 - y0).tdiv (x1 - x0)).natAbs : Int)) =
          (y1 - y0) / (x1 - x0) := by
        rw [hbase]
        exact Int.natAbs_of_nonneg hbnn
      rw [hady, hbabs, hbase] at hz'
      have hrdef : y1 - y0 - (y1 - y0) / (x1 - x0) * (x1 - x0) =
          (y1 - y0) % (x1 - x0) := by
        rw [Int.emod_def]
        ring
      rw [hrdef] at hz'
      obtain ⟨t, ht1, ht2, hzeq⟩ := renderLineLoop_mem
        ((y1 - y0) % (x1 - x0)) (x1 - x0) 1 ((y1 - y0) / (x1 - x0)) hadx
        (Int.emod_nonneg _ (ne_of_gt hadx)) (Int.emod_lt_of_pos _ hadx)
        (x1 - x0 - 1).toNat y0 0 (le_refl 0) hadx z hz'
      have hsplit : (t : Int) * (y1 - y0) =
          (0 + (t : Int) * ((y1 - y0) % (x1 - x0))) +
            ((t : Int) * ((y1 - y0) / (x1 - x0))) * (x1 - x0) := by
        have h := Int.ediv_add_emod (y1 - y0) (x1 - x0)
        linear_combination (t : Int) * h.symm
      have hkey : ((t : Int) * (y1 - y0)) / (x1 - x0) =
          (0 + (t : Int) * ((y1 - y0) % (x1 - x0))) / (x1 - x0) +
            (t : Int) * ((y1 - y0) / (x1 - x0)) := by
        rw [hsplit, Int.add_mul_ediv_right _ _ (ne_of_gt hadx)]
      have hq0 : 0 ≤ ((t : Int) * (y1 - y0)) / (x1 - x0) :=
        Int.ediv_nonneg (mul_nonneg (Int.natCast_nonneg t) hdy) (le_of_lt hadx)
      have hqd : ((t : Int) * (y1 - y0)) / (x1 - x0) ≤ y1 - y0 := by
        have htle : (t : Int) ≤ x1 - x0 := by
          rw [Int.toNat_of_nonneg (by omega : (0 : Int) ≤ x1 - x0 - 1)] at ht2
          omega
        calc ((t : Int) * (y1 - y0)) / (x1 - x0)
            ≤ ((x1 - x0) * (y1 - y0)) / (x1 - x0) :=
              Int.ediv_le_ediv hadx (mul_le_mul_of_nonneg_right htle hdy)
          _ = y1 - y0 := Int.mul_ediv_cancel_left _ (ne_of_gt hadx)
      have hz2 : z = y0 + ((t : Int) * (y1 - y0)) / (x1 - x0) := by
        rw [hzeq, hkey]
        ring
      constructor
      · rw [min_eq_left (by omega : y0 ≤ y1)]
        omega
      · rw [max_eq_right (by omega : y0 ≤ y1)]
        omega
    · -- descending line
      push_neg at hdy
      rw [if_pos hdy] at hz'
      have hD : 0 ≤ -(y1 - y0) := by omega
      have hbase : (y1 - y0).tdiv (x1 - x0) = -(-(y1 - y0) / (x1 - x0)) := by
        rw [show y1 - y0 = -(-(y1 - y0)) by ring, Int.neg_tdiv,
          Int.tdiv_eq_ediv hD (le_of_lt hadx)]
        ring_nf
      have hady : (((y1 - y0).natAbs : Int)) = -(y1 - y0) :=
        Int.ofNat_natAbs_of_nonpos (by omega)
      have hbnn : 0 ≤ -(y1 - y0) / (x1 - x0) :=
        Int.ediv_nonneg hD (le_of_lt hadx)
      have hbabs : ((((y1 - y0).tdiv (x1 - x0)).natAbs : Int)) =
          -(y1 - y0) / (x1 - x0) := by
        rw [hbase, Int.ofNat_natAbs_of_nonpos (by omega)]
        ring
      rw [hady, hbabs, hbase] at hz'
      have hrdef : -(y1 - y0) - -(y1 - y0) / (x1 - x0) * (x1 - x0) =
          -(y1 - y0) % (x1 - x0) := by
        rw [Int.emod_def]
        ring
      rw [hrdef] at hz'
      have hsy : -(-(y1 - y0) / (x1 - x0)) + -1 =
          -(-(y1 - y0) / (x1 - x0)) + (-1 : Int) := rfl
      obtain ⟨t, ht1, ht2, hzeq⟩ := renderLineLoop_mem
        (-(y1 - y0) % (x1 - x0)) (x1 - x0) (-1) (-(-(y1 - y0) / (x1 - x0))) hadx
        (Int.emod_nonneg _ (ne_of_gt hadx)) (Int.emod_lt_of_pos _ hadx)
        (x1 - x0 - 1).toNat y0 0 (le_refl 0) hadx z hz'
      have hsplit : (t : Int) * -(y1 - y0) =
          (0 + (t : Int) * (-(y1 - y0) % (x1 - x0))) +
            ((t : Int) * (-(y1 - y0) / (x1 - x0))) * (x1 - x0) := by
        have h := Int.ediv_add_emod (-(y1 - y0)) (x1 - x0)
        linear_combination (t : Int) * h.symm
      have hkey : ((t : Int) * -(y1 - y0)) / (x1 - x0) =
          (0 + (t : Int) * (-(y1 - y0) % (x1 - x0))) / (x1 - x0) +
            (t : Int) * (-(y1 - y0) / (x1 - x0)) := by
        rw [hsplit, Int.add_mul_ediv_right _ _ (ne_of_gt hadx)]
      have hq0 : 0 ≤ ((t : Int) * -(y1 - y0)) / (x1 - x0) :=
        Int.ediv_nonneg (mul_nonneg (Int.natCast_nonneg t) hD) (le_of_lt hadx)
      have hqd : ((t : Int) * -(y1 - y0)) / (x1 - x0) ≤ -(y1 - y0) := by
        have htle : (t : Int) ≤ x1 - x0 := by
          rw [Int.toNat_of_nonneg (by omega : (0 : Int) ≤ x1 - x0 - 1)] at ht2
          omega
        calc ((t : Int) * -(y1 - y0)) / (x1 - x0)
            ≤ ((x1 - x0) * -(y1 - y0)) / (x1 - x0) :=
              Int.ediv_le_ediv hadx (mul_le_mul_of_nonneg_right htle hD)
          _ = -(y1 - y0) := Int.mul_ediv_cancel_left _ (ne_of_gt hadx)
      have hz2 : z = y0 - ((t : Int) * -(y1 - y0)) / (x1 - x0) := by
        rw [hzeq, hkey]
        ring
      constructor
      · rw [min_eq_right (by omega : y1 ≤ y0)]
        omega
      · rw [max_eq_left (by omega : y1 ≤ y0)]
        omega

/-- The loop body of `floor_one_curve_synthesis` (lines 539-547 of
`src/audio.rs`): state `(lx, ly, hx, hy, floor)`; on a flagged index the new
`(hx, hy)` pair is computed, a line is rendered from `(lx, ly)` to it, and
`(lx, ly)` follow.  `finalYs`, `xlistS` and `flagS` are the three sorted-order
accessors of the source (lines 530-533). -/
def floorOneSynthStep (finalYs xlistS : Nat → Nat) (flagS : Nat → Bool)
    (mult : Nat) (st : Nat × Nat × Nat × Nat × List Int) (i : Nat) :
    Nat × Nat × Nat × Nat × List Int :=
  match st with
  | (lx, ly, hx0, hy0, floorAcc) =>
    if flagS i then
      (xlistS i, finalYs i * mult, xlistS i, finalYs i * mult,
        floorAcc ++ renderLine (lx : Int) (ly : Int) ((xlistS i : Nat) : Int)
          ((finalYs i * mult : Nat) : Int))
    else (lx, ly, hx0, hy0, floorAcc)

/-- `floor_one_curve_synthesis` (lines 528-557 of `src/audio.rs`) up to the
`FLOOR1_INVERSE_DB_TABLE` lookup: the list of table indices computed (the
`floor` vector of the source).  Out-of-range accesses to the per-floor lists
(impossible for header-built floors) are modelled with `getD` defaults. -/
def floorOneCurveSynthesisIndices (floor1FinalY : List Nat)
    (floor1Step2Flag : List Bool) (fl : FloorTypeOne) (n : Nat) : List Int :=
  let finalYs := fun i : Nat =>
    floor1FinalY.getD (fl.floor1XListSorted.getD i (0, 0)).1 0
  let xlistS := fun i : Nat => (fl.floor1XListSorted.getD i (0, 0)).2
  let flagS := fun i : Nat =>
    floor1Step2Flag.getD (fl.floor1XListSorted.getD i (0, 0)).1 false
  let st := (List.range' 1 (fl.floor1XList.length - 1)).foldl
    (floorOneSynthStep finalYs xlistS flagS fl.floor1Multiplier)
    (0, finalYs 0 * fl.floor1Multiplier, 0, 0, [])
  match st with
  | (_, _, hx, hy, floorAcc) =>
    if hx < n then floorAcc ++ renderLine (hx : Int) (hy : Int) (n : Int) (hy : Int)
    else if n < hx then floorAcc.take n
    else floorAcc

theorem synth_fold_inv (finalYs xlistS : Nat → Nat) (flagS : Nat → Bool)
    (mult : Nat) (hys : ∀ i, finalYs i * mult ≤ 255) :
    ∀ (l : List Nat) (st : Nat × Nat × Nat × Nat × List Int),
      List.Pairwise (fun a b => xlistS a < xlistS b) l →
      (∀ j ∈ l, st.2.2.1 < xlistS j) →
      st.1 = st.2.2.1 → st.2.1 ≤ 255 → st.2.2.2.1 ≤ 255 →
      (∀ z ∈ st.2.2.2.2, 0 ≤ z ∧ z ≤ 255) →
      ((l.foldl (floorOneSynthStep finalYs xlistS flagS mult) st).1 =
          (l.foldl (floorOneSynthStep finalYs xlistS flagS mult) st).2.2.1 ∧
        (l.foldl (floorOneSynthStep finalYs xlistS flagS mult) st).2.1 ≤ 255 ∧
        (l.foldl (floorOneSynthStep finalYs xlistS flagS mult) st).2.2.2.1 ≤ 255 ∧
        (∀ z ∈ (l.foldl (floorOneSynthStep finalYs xlistS flagS mult) st).2.2.2.2,
          0 ≤ z ∧ z ≤ 255)) := by
  intro l
  induction l with
  | nil =>
    intro st _ _ h1 h2 h3 h4
    exact ⟨h1, h2, h3, h4⟩
  | cons i l' ih =>
    intro st hpair hfut h1 h2 h3 h4
    obtain ⟨lx, ly, hx, hy, acc⟩ := st
    dsimp only at h1 h2 h3 h4 hfut
    obtain ⟨hhead, hpair'⟩ := List.pairwise_cons.mp hpair
    rw [List.foldl_cons]
    by_cases hflag : flagS i = true
    · have hstep : floorOneSynthStep finalYs xlistS flagS mult
          (lx, ly, hx, hy, acc) i =
          (xlistS i, finalYs i * mult, xlistS i, finalYs i * mult,
            acc ++ renderLine (lx : Int) (ly : Int) ((xlistS i : Nat) : Int)
              ((finalYs i * mult : Nat) : Int)) := by
        simp [floorOneSynthStep, hflag]
      rw [hstep]
      apply ih
      · exact hpair'
      · intro j hj
        exact hhead j hj
      · rfl
      · exact hys i
      · exact hys i
      · intro z hz
        rcases List.mem_append.mp hz with hz' | hz'
        · exact h4 z hz'
        · have hlt : (0 : Int) < ((xlistS i : Nat) : Int) - (lx : Int) := by
            have := hfut i (List.mem_cons_self _ _)
            rw [h1] at *
            omega
          obtain ⟨hzl, hzr⟩ := renderLine_mem_bounds _ _ _ _ hlt z hz'
          constructor
          · have : (0 : Int) ≤ min (ly : Int) ((finalYs i * mult : Nat) : Int) := by
              positivity
            omega
          · have : max (ly : Int) ((finalYs i * mult : Nat) : Int) ≤ 255 := by
              have hx1 : (ly : Int) ≤ 255 := by exact_mod_cast h2
              have hx2 : ((finalYs i * mult : Nat) : Int) ≤ 255 := by
                exact_mod_cast hys i
              exact max_le hx1 hx2
            omega
    · have hstep : floorOneSynthStep finalYs xlistS flagS mult
          (lx, ly, hx, hy, acc) i = (lx, ly, hx, hy, acc) := by
        simp [floorOneSynthStep, hflag]
      rw [hstep]
      apply ih _ hpair' _ h1 h2 h3 h4
      intro j hj
      exact hfut j (List.mem_cons_of_mem _ hj)

/-- C9: with a valid multiplier (1..4, selecting range 256/128/86/64), after
the `floor_one_curve_compute_amplitude` clamp to `range - 1`, every index
`floor_one_curve_synthesis` computes into the 256-entry
`FLOOR1_INVERSE_DB_TABLE` — the clamped Y values times the multiplier and
every interpolated `render_line` value in between — lies in `[0, 255]`, so
the table lookup is always in bounds. -/
theorem claim_c9_floor1_table_indices_bounded
    (ys : List Nat) (flags : List Bool) (fl : FloorTypeOne) (n : Nat)
    (hm1 : 1 ≤ fl.floor1Multiplier) (hm4 : fl.floor1Multiplier ≤ 4)
    (hlen : fl.floor1XListSorted.length = fl.floor1XList.length)
    (hsorted : List.Pairwise (fun p q : Nat × Nat => p.2 < q.2)
      fl.floor1XListSorted) :
    ∀ z ∈ floorOneCurveSynthesisIndices
        (floorOneClampFinalY
          ([256, 128, 86, 64].getD (fl.floor1Multiplier - 1) 0) ys)
        flags fl n,
      0 ≤ z ∧ z ≤ 255 := by
  have hrange : ([256, 128, 86, 64].getD (fl.floor1Multiplier - 1) 0 - 1) *
      fl.floor1Multiplier ≤ 255 := by
    have hm : fl.floor1Multiplier = 1 ∨ fl.floor1Multiplier = 2 ∨
        fl.floor1Multiplier = 3 ∨ fl.floor1Multiplier = 4 := by omega
    rcases hm with h | h | h | h <;> rw [h] <;> decide
  have hclamp : ∀ j : Nat,
      (floorOneClampFinalY
        ([256, 128, 86, 64].getD (fl.floor1Multiplier - 1) 0) ys).getD j 0 ≤
      [256, 128, 86, 64].getD (fl.floor1Multiplier - 1) 0 - 1 := by
    intro j
    rw [List.getD_eq_getElem?_getD, floorOneClampFinalY, List.getElem?_map]
    rcases hyj : ys[j]? with _ | yv
    · simp
    · simp only [Option.map_some', Option.getD_some]
      exact min_le_left _ _
  have hys : ∀ i : Nat,
      (floorOneClampFinalY
        ([256, 128, 86, 64].getD (fl.floor1Multiplier - 1) 0) ys).getD
        (fl.floor1XListSorted.getD i (0, 0)).1 0 * fl.floor1Multiplier ≤ 255 :=
    fun i => le_trans (Nat.mul_le_mul_right _ (hclamp _)) hrange
  have hidx : ∀ j ∈ List.range' 1 (fl.floor1XList.length - 1),
      1 ≤ j ∧ j < fl.floor1XListSorted.length := by
    intro j hj
    rw [List.mem_range'] at hj
    obtain ⟨i, hi, rfl⟩ := hj
    constructor
    · omega
    · rw [hlen]
      omega
  have hxget : ∀ (j : Nat) (hj : j < fl.floor1XListSorted.length),
      (fl.floor1XListSorted.getD j (0, 0)).2 =
        (fl.floor1XListSorted[j]).2 := by
    intro j hj
    rw [List.getD_eq_getElem _ _ hj]
  have hpair : List.Pairwise
      (fun a b => (fl.floor1XListSorted.getD a (0, 0)).2 <
        (fl.floor1XListSorted.getD b (0, 0)).2)
      (List.range' 1 (fl.floor1XList.length - 1)) := by
    apply List.Pairwise.imp_of_mem _ (List.pairwise_lt_range' 1 _ 1)
    intro a b ha hb hab
    obtain ⟨_, ha2⟩ := hidx a ha
    obtain ⟨_, hb2⟩ := hidx b hb
    rw [hxget a ha2, hxget b hb2]
    exact (List.pairwise_iff_getElem.mp hsorted) a b ha2 hb2 hab
  have hfut : ∀ j ∈ List.range' 1 (fl.floor1XList.length - 1),
      0 < (fl.floor1XListSorted.getD j (0, 0)).2 := by
    intro j hj
    obtain ⟨hj1, hj2⟩ := hidx j hj
    have h0 : 0 < fl.floor1XListSorted.length := by omega
    have := (List.pairwise_iff_getElem.mp hsorted) 0 j h0 hj2 (by omega)
    rw [hxget j hj2]
    omega
  unfold floorOneCurveSynthesisIndices
  dsimp only
  obtain ⟨hP1, hP2, hP3, hP4⟩ := synth_fold_inv
    (fun i : Nat =>
      (floorOneClampFinalY
        ([256, 128, 86, 64].getD (fl.floor1Multiplier - 1) 0) ys).getD
        (fl.floor1XListSorted.getD i (0, 0)).1 0)
    (fun i : Nat => (fl.floor1XListSorted.getD i (0, 0)).2)
    (fun i : Nat => flags.getD (fl.floor1XListSorted.getD i (0, 0)).1 false)
    fl.floor1Multiplier hys
    (List.range' 1 (fl.floor1XList.length - 1))
    (0, (floorOneClampFinalY
        ([256, 128, 86, 64].getD (fl.floor1Multiplier - 1) 0) ys).getD
        (fl.floor1XListSorted.getD 0 (0, 0)).1 0 * fl.floor1Multiplier, 0, 0, [])
    hpair (by intro j hj; exact hfut j hj) rfl (hys 0) (by simp)
    (by intro z hz; simp at hz)
  rcases hst : (List.range' 1 (fl.floor1XList.length - 1)).foldl
      (floorOneSynthStep _ _ _ fl.floor1Multiplier)
      (0, (floorOneClampFinalY
        ([256, 128, 86, 64].getD (fl.floor1Multiplier - 1) 0) ys).getD
        (fl.floor1XListSorted.getD 0 (0, 0)).1 0 * fl.floor1Multiplier, 0, 0, [])
    with ⟨lx, ly, hx, hy, acc⟩
  rw [hst] at hP1 hP2 hP3 hP4
  dsimp only at hP1 hP2 hP3 hP4 ⊢
  intro z hz
  by_cases hc1 : hx < n
  · rw [if_pos hc1] at hz
    rcases List.mem_append.mp hz with hz' | hz'
    · exact hP4 z hz'
    · have hlt : (0 : Int) < (n : Int) - (hx : Int) := by omega
      obtain ⟨hzl, hzr⟩ := renderLine_mem_bounds _ _ _ _ hlt z hz'
      constructor
      · have : (0 : Int) ≤ min (hy : Int) (hy : Int) := by positivity
        omega
      · have : max (hy : Int) (hy : Int) ≤ 255 := by
          have : (hy : Int) ≤ 255 := by exact_mod_cast hP3
          omega
        omega
  · rw [if_neg hc1] at hz
    by_cases hc2 : n < hx
    · rw [if_pos hc2] at hz
      exact hP4 z (List.take_subset _ _ hz)
    · rw [if_neg hc2] at hz
      exact hP4 z hz

/-- Witness for C9: a two-point floor-1 with multiplier 1 (`range = 256`),
x-list `[0, 4]`, raw Y vector `[2, 300]` (clamped to `[2, 255]`), both flags
set, `n = 2`. -/
theorem claim_c9_witness :
    (65 : Int) ∈ floorOneCurveSynthesisIndices
        (floorOneClampFinalY
          ([256, 128, 86, 64].getD
            ((⟨1, [], [], [], [], [], [0, 4], [(0, 0), (1, 4)]⟩ :
              FloorTypeOne).floor1Multiplier - 1) 0) [2, 300])
        [true, true]
        ⟨1, [], [], [], [], [], [0, 4], [(0, 0), (1, 4)]⟩ 2 ∧
      0 ≤ (65 : Int) ∧ (65 : Int) ≤ 255 :=
  ⟨by decide,
    claim_c9_floor1_table_indices_bounded [2, 300] [true, true]
      ⟨1, [], [], [], [], [], [0, 4], [(0, 0), (1, 4)]⟩ 2
      (by decide) (by decide) (by decide) (by decide) 65 (by decide)⟩

theorem except_map_error {α β : Type} (r : Except Unit α) (f : α → β)
    (h : r.map f = Except.error ()) : r = Except.error () := by
  cases r with
  | error e => cases e; rfl
  | ok v => simp [Except.map] at h

/-- C10: for every `BitpackCursor` and every fixed- or dynamic-width read
(`read_u1` .. `read_u32` and the signed variants all instantiate
`bpc_read_body!`, covered by the first conjunct; `read_dyn_u8` .. `read_dyn_u64`
by the second; `read_dyn_i8` .. `read_dyn_i32` by the third; `read_i32`,
`read_i8`, `read_bit_flag` and `read_f32` by the rest), if the call returns
`Err` because too few bits remain, the cursor's byte and bit positions are
exactly as they were before the call; state advances only on a successful
read. -/
theorem claim_c10_read_error_preserves_cursor
    (bitnum octetnum bn bni : Nat) (c : BitpackCursor) :
    ((bpcRead bitnum octetnum c).1 = Except.error () →
      (bpcRead bitnum octetnum c).2 = c) ∧
    ((readDynU bn c).1 = Except.error () → (readDynU bn c).2 = c) ∧
    ((readDynI bni c).1 = Except.error () → (readDynI bni c).2 = c) ∧
    ((readI32 c).1 = Except.error () → (readI32 c).2 = c) ∧
    ((readI8 c).1 = Except.error () → (readI8 c).2 = c) ∧
    ((readBitFlag c).1 = Except.error () → (readBitFlag c).2 = c) ∧
    ((readF32 c).1 = Except.error () → (readF32 c).2 = c) := by
  refine ⟨bpcRead_error_eq bitnum octetnum c, ?_, ?_, ?_, ?_, ?_, ?_⟩
  · intro h
    unfold readDynU at h ⊢
    by_cases hz : bn = 0
    · rw [if_pos hz] at h; simp at h
    · rw [if_neg hz] at h ⊢
      exact bpcRead_error_eq _ _ _ h
  · intro h
    unfold readDynI at h ⊢
    exact bpcRead_error_eq _ _ _ (except_map_error _ _ h)
  · intro h
    unfold readI32 at h ⊢
    exact bpcRead_error_eq _ _ _ (except_map_error _ _ h)
  · intro h
    unfold readI8 at h ⊢
    exact bpcRead_error_eq _ _ _ (except_map_error _ _ h)
  · intro h
    unfold readBitFlag at h ⊢
    exact bpcRead_error_eq _ _ _ (except_map_error _ _ h)
  · intro h
    unfold readF32 at h ⊢
    exact bpcRead_error_eq _ _ _ (except_map_error _ _ h)

/-- Witness for C10: each reader family hits the end-of-buffer error on a
concrete one-byte (or empty) buffer and leaves the cursor untouched. -/
theorem claim_c10_witness :
    (bpcRead 16 2 ⟨0, 0, [7]⟩).2 = ⟨0, 0, [7]⟩ ∧
    (readDynU 13 ⟨0, 0, [7]⟩).2 = ⟨0, 0, [7]⟩ ∧
    (readDynI 9 ⟨0, 0, [7]⟩).2 = ⟨0, 0, [7]⟩ ∧
    (readI32 ⟨0, 0, [7]⟩).2 = ⟨0, 0, [7]⟩ ∧
    (readI8 ⟨5, 0, [1]⟩).2 = ⟨5, 0, [1]⟩ ∧
    (readBitFlag ⟨0, 0, []⟩).2 = ⟨0, 0, []⟩ ∧
    (readF32 ⟨0, 0, [7]⟩).2 = ⟨0, 0, [7]⟩ :=
  ⟨(claim_c10_read_error_preserves_cursor 16 2 13 9 ⟨0, 0, [7]⟩).1 rfl,
   (claim_c10_read_error_preserves_cursor 16 2 13 9 ⟨0, 0, [7]⟩).2.1 rfl,
   (claim_c10_read_error_preserves_cursor 16 2 13 9 ⟨0, 0, [7]⟩).2.2.1 rfl,
   (claim_c10_read_error_preserves_cursor 16 2 13 9 ⟨0, 0, [7]⟩).2.2.2.1 rfl,
   (claim_c10_read_error_preserves_cursor 16 2 13 9 ⟨5, 0, [1]⟩).2.2.2.2.1 rfl,
   (claim_c10_read_error_preserves_cursor 16 2 13 9 ⟨0, 0, []⟩).2.2.2.2.2.1 rfl,
   (claim_c10_read_error_preserves_cursor 16 2 13 9 ⟨0, 0, [7]⟩).2.2.2.2.2.2 rfl⟩

/-! ## Huffman construction: errors and the single-entry exception -/

/-- Shape predicate independent of the `even_childs` bookkeeping flag:
`true` iff every node of the tree has either zero or two children ("no
interior node has only one child"). -/
def shapeEvenB : HuffTree → Bool
  | .node _ _ none none => true
  | .node _ _ (some lt) (some rt) => shapeEvenB lt && shapeEvenB rt
  | .node _ _ _ _ => false

/-- Construction invariant maintained by `insert_rec` starting from the empty
root: the `even_childs` field tracks `shapeEvenB`, a payload-carrying node is
a leaf, and a right child never exists without a left child. -/
def invB : HuffTree → Bool
  | .node ec _ none none => ec
  | .node ec pl (some lt) none => !ec && pl.isNone && invB lt
  | .node _ _ none (some _) => false
  | .node ec pl (some lt) (some rt) =>
      (ec == (shapeEvenB lt && shapeEvenB rt)) && pl.isNone && invB lt && invB rt

theorem invB_evenChilds (t : HuffTree) (h : invB t = true) :
    t.evenChilds = shapeEvenB t := by
  obtain ⟨ec, pl, l, r⟩ := t
  cases l <;> cases r <;>
    simp only [invB, shapeEvenB, HuffTree.evenChilds, Bool.and_eq_true,
      Bool.not_eq_true', beq_iff_eq] at h ⊢ <;> simp_all

theorem insertRec_invB (p : Nat) :
    ∀ (d : Nat) (t : HuffTree), invB t = true → invB (insertRec t p d).2 = true := by
  intro d
  induction d with
  | zero =>
    intro t hinv
    obtain ⟨ec, pl, l, r⟩ := t
    simp only [insertRec]
    by_cases hpl : pl.isSome
    · rw [if_pos hpl]; exact hinv
    · rw [if_neg hpl]
      by_cases hlr : (l.isSome || r.isSome) = true
      · rw [if_pos hlr]; exact hinv
      · rw [if_neg hlr]
        rcases l with _ | lt
        · rcases r with _ | rt
          · simpa [invB] using hinv
          · simp at hlr
        · simp at hlr
  | succ d ih =>
    intro t hinv
    obtain ⟨ec, pl, l, r⟩ := t
    simp only [insertRec]
    by_cases hpl : pl.isSome
    · rw [if_pos hpl]; exact hinv
    · rw [if_neg hpl]
      have hpl' : pl = none := Option.not_isSome_iff_eq_none.mp hpl
      subst hpl'
      by_cases hec : ec = true
      · subst hec
        rw [if_pos rfl]
        rcases l with _ | lt
        · rcases r with _ | rt
          · dsimp only
            simp only [invB, Bool.not_true, Option.isNone_none, Bool.true_and,
              Bool.not_false]
            exact ih _ (by decide)
          · simp [invB] at hinv
        · dsimp only
          exact hinv
      · have hec' : ec = false := by cases ec <;> simp_all
        subst hec'
        rw [if_neg (by decide)]
        rcases l with _ | left
        · dsimp only
          exact hinv
        · dsimp only
          rcases r with _ | rt
          · have hl : invB left = true := by
              simp only [invB, Bool.not_false, Option.isNone_none, Bool.true_and,
                Bool.and_eq_true] at hinv
              exact hinv
            have hatt : invB (if !left.evenChilds then insertRec left p d
                else (false, left)).2 = true := by
              by_cases hb : (!left.evenChilds) = true
              · rw [if_pos hb]; exact ih _ hl
              · rw [if_neg hb]; exact hl
            by_cases ha : (if !left.evenChilds then insertRec left p d
                else (false, left)).1 = true
            · rw [if_pos ha]
              dsimp only
              simp only [invB, Bool.and_false, Bool.not_false, Option.isNone_none,
                Bool.true_and]
              exact hatt
            · rw [if_neg ha]
              dsimp only
              have hnn : invB (insertRec (.node true none none none) p d).2 = true :=
                ih _ (by decide)
              simp only [invB]
              rw [invB_evenChilds _ hatt, invB_evenChilds _ hnn, hatt, hnn]
              simp
          · have hinv' := hinv
            simp only [invB, Bool.and_eq_true] at hinv'
            obtain ⟨⟨⟨_, _⟩, hl⟩, hr⟩ := hinv'
            have hatt : invB (if !left.evenChilds then insertRec left p d
                else (false, left)).2 = true := by
              by_cases hb : (!left.evenChilds) = true
              · rw [if_pos hb]; exact ih _ hl
              · rw [if_neg hb]; exact hl
            by_cases ha : (if !left.evenChilds then insertRec left p d
                else (false, left)).1 = true
            · rw [if_pos ha]
              dsimp only
              simp only [invB]
              rw [invB_evenChilds _ hatt, invB_evenChilds _ hr, hatt, hr]
              simp
            · rw [if_neg ha]
              dsimp only
              have hrr : invB (insertRec rt p d).2 = true := ih _ hr
              simp only [invB]
              rw [invB_evenChilds _ hatt, invB_evenChilds _ hrr, hatt, hrr]
              simp

theorem insertAllLoop_invB :
    ∀ (l : List (Nat × Nat)) (t : HuffTree) (cnt : Nat) (lvi : Option Nat)
      (res : HuffTree × Nat × Option Nat),
      invB t = true → insertAllLoop l t cnt lvi = some res → invB res.1 = true := by
  intro l
  induction l with
  | nil =>
    intro t cnt lvi res hinv heq
    simp only [insertAllLoop] at heq
    injection heq with h
    rw [← h]
    exact hinv
  | cons x rest ih =>
    intro t cnt lvi res hinv heq
    obtain ⟨i, len⟩ := x
    simp only [insertAllLoop] at heq
    by_cases hlen : len = 0
    · rw [if_pos hlen] at heq
      exact ih _ _ _ _ hinv heq
    · rw [if_neg hlen] at heq
      by_cases hs : (insertRec t i len).1 = true
      · rw [if_pos hs] at heq
        exact ih _ _ _ _ (insertRec_invB i len t hinv) heq
      · rw [if_neg hs] at heq
        cases heq

theorem insertAllLoop_zeros :
    ∀ (l : List (Nat × Nat)), (∀ x ∈ l, x.2 = 0) →
      ∀ (t : HuffTree) (cnt : Nat) (lvi : Option Nat),
        insertAllLoop l t cnt lvi = some (t, cnt, lvi) := by
  intro l
  induction l with
  | nil => intro _ t cnt lvi; rfl
  | cons x rest ih =>
    intro hz t cnt lvi
    obtain ⟨i, len⟩ := x
    have h0 : len = 0 := hz (i, len) (List.mem_cons_self _ _)
    simp only [insertAllLoop, if_pos h0]
    exact ih (fun y hy => hz y (List.mem_cons_of_mem _ hy)) t cnt lvi

/-- The tree produced by inserting a single payload at depth `d` into the
empty root: a chain of `d` left-only interior nodes ending in a leaf. -/
def emptyInsert (p : Nat) : Nat → HuffTree
  | 0 => .node true (some p) none none
  | d + 1 => .node false none (some (emptyInsert p d)) none

theorem insertRec_root_empty (p : Nat) :
    ∀ d : Nat, insertRec rootTree p d = (true, emptyInsert p d) := by
  intro d
  induction d with
  | zero => rfl
  | succ d ih =>
    show insertRec (.node true none none none) p (d + 1) = _
    simp only [insertRec]
    rw [show (insertRec (.node true none none none) p d) = insertRec rootTree p d
      from rfl, ih]
    rfl

theorem insertAllLoop_unique (i lv : Nat) (hlv : lv ≠ 0) :
    ∀ (l : List (Nat × Nat)) (lvi : Option Nat),
      (i, lv) ∈ l →
      (∀ x ∈ l, x.2 ≠ 0 → x = (i, lv)) →
      List.Pairwise (fun a b : Nat × Nat => a.1 ≠ b.1) l →
      insertAllLoop l rootTree 0 lvi = some (emptyInsert i lv, 1, some i) := by
  intro l
  induction l with
  | nil => intro lvi hmem _ _; exact absurd hmem (List.not_mem_nil _)
  | cons x rest ih =>
    intro lvi hmem huniq hpw
    obtain ⟨j, len⟩ := x
    simp only [insertAllLoop]
    by_cases hlen : len = 0
    · rw [if_pos hlen]
      have hmem' : (i, lv) ∈ rest := by
        rcases List.mem_cons.mp hmem with h | h
        · exfalso
          injection h with h1 h2
          exact hlv (h2.trans hlen)
        · exact h
      exact ih lvi hmem' (fun y hy hny => huniq y (List.mem_cons_of_mem _ hy) hny)
        hpw.of_cons
    · rw [if_neg hlen]
      have hj : (j, len) = (i, lv) := huniq (j, len) (List.mem_cons_self _ _) hlen
      injection hj with hj1 hj2
      subst hj1
      subst hj2
      rw [insertRec_root_empty]
      dsimp only
      rw [if_pos rfl]
      have hz : ∀ y ∈ rest, y.2 = 0 := by
        intro y hy
        by_contra hny
        have hyi : y = (j, len) := huniq y (List.mem_cons_of_mem _ hy) hny
        have hne := (List.pairwise_cons.mp hpw).1 y hy
        rw [hyi] at hne
        exact hne rfl
      exact insertAllLoop_zeros rest hz _ _ _

/-- One decoding step on the four-word single-entry program
`[1 <<< 31, 3, 3, dec]`: either input bit leads to the leaf at position 3. -/
theorem iterNext_single (dec : Nat) (h : dec &&& (1 <<< 31) = 0) (b : Bool) :
    iterNext [1 <<< 31, 3, 3, dec] 0 b = (some dec, 0) := by
  have hb : iterNext [1 <<< 31, 3, 3, dec] 0 b =
      if dec &&& (1 <<< 31) ≠ 0 then (none, 3) else (some dec, 0) := by
    cases b <;> rfl
  rw [hb, if_neg (by simp only [ne_eq, not_not]; exact h)]

/-- C5: for every codeword-length vector, `load_from_array` fails with
`Overspecified` when the insertion loop cannot place some nonzero-length
codeword (the loop aborts), fails with `Underpopulated` when the tree left by
the loop has an interior node with exactly one child (and more than one
codeword was placed, `cnt ≠ 1`); and a vector with exactly one nonzero entry
is the single exception: if that length is 1 the call succeeds with a tree
whose iterator decodes either single input bit to that entry's index, and if
that length is 2 or more the call is rejected with `InvalidSingleEntry`. -/
theorem claim_c5_huffman_construction (lengths : List Nat) :
    (insertAllLoop lengths.enum rootTree 0 none = none →
        loadFromArray lengths = Except.error HuffmanError.overspecified) ∧
    (∀ (t : HuffTree) (cnt : Nat) (lvi : Option Nat),
        insertAllLoop lengths.enum rootTree 0 none = some (t, cnt, lvi) →
        cnt ≠ 1 → shapeEvenB t = false →
        loadFromArray lengths = Except.error HuffmanError.underpopulated) ∧
    (∀ i : Nat, i < lengths.length → lengths.getD i 0 ≠ 0 →
        (∀ j : Nat, j < lengths.length → j ≠ i → lengths.getD j 0 = 0) →
        i < 2 ^ 31 →
        ((lengths.getD i 0 = 1 →
            ∃ tree, loadFromArray lengths = Except.ok tree ∧
              (iterNext tree.descProg 0 false).1 = some i ∧
              (iterNext tree.descProg 0 true).1 = some i) ∧
          (2 ≤ lengths.getD i 0 →
            loadFromArray lengths = Except.error HuffmanError.invalidSingleEntry))) := by
  refine ⟨?_, ?_, ?_⟩
  · intro h
    unfold loadFromArray
    rw [h]
  · intro t cnt lvi heq hcnt hshape
    have hinv : invB t = true :=
      insertAllLoop_invB lengths.enum rootTree 0 none (t, cnt, lvi) (by decide) heq
    have hev : t.evenChilds = false := by
      rw [invB_evenChilds t hinv, hshape]
    unfold loadFromArray
    rw [heq]
    dsimp only
    rw [if_neg hcnt, if_pos (by rw [hev]; rfl)]
  · intro i hi hnz huniq hi31
    have hmem : (i, lengths.getD i 0) ∈ lengths.enum := by
      rw [List.mk_mem_enum_iff_getElem?, List.getElem?_eq_getElem hi,
        List.getD_eq_getElem lengths 0 hi]
    have huniq' : ∀ x ∈ lengths.enum, x.2 ≠ 0 → x = (i, lengths.getD i 0) := by
      intro x hx hnx
      obtain ⟨j, a⟩ := x
      rw [List.mk_mem_enum_iff_getElem?] at hx
      obtain ⟨hj, ha⟩ := List.getElem?_eq_some.mp hx
      have hgd : lengths.getD j 0 = a := by
        rw [List.getD_eq_getElem lengths 0 hj, ha]
      by_cases hji : j = i
      · subst hji
        rw [hgd]
      · exfalso
        apply hnx
        rw [← hgd]
        exact huniq j hj hji
    have hpw : List.Pairwise (fun a b : Nat × Nat => a.1 ≠ b.1) lengths.enum :=
      (enum_pairwise_fst_lt lengths).imp (fun h => Nat.ne_of_lt h)
    have heq := insertAllLoop_unique i (lengths.getD i 0) hnz lengths.enum none
      hmem huniq' hpw
    have hand : i &&& (1 <<< 31) = 0 := by
      rw [show (1 : Nat) <<< 31 = 2 ^ 31 by rw [Nat.shiftLeft_eq, one_mul],
        Nat.and_two_pow, Nat.testBit_lt_two_pow hi31]
      rfl
    constructor
    · intro h1
      refine ⟨⟨[1 <<< 31, 3, 3, i]⟩, ?_, ?_, ?_⟩
      · unfold loadFromArray
        rw [heq]
        dsimp only [Option.getD_some]
        rw [if_pos rfl, if_pos h1]
      · rw [iterNext_single i hand]
      · rw [iterNext_single i hand]
    · intro h2
      unfold loadFromArray
      rw [heq]
      dsimp only [Option.getD_some]
      rw [if_pos rfl, if_neg (by omega)]

theorem claim_c5_witness :
    loadFromArray [1, 1, 1] = Except.error HuffmanError.overspecified ∧
    loadFromArray [2, 2] = Except.error HuffmanError.underpopulated ∧
    (∃ tree, loadFromArray [0, 0, 1, 0] = Except.ok tree ∧
      (iterNext tree.descProg 0 false).1 = some 2 ∧
      (iterNext tree.descProg 0 true).1 = some 2) ∧
    loadFromArray [2] = Except.error HuffmanError.invalidSingleEntry := by
  refine ⟨(claim_c5_huffman_construction [1, 1, 1]).1 rfl,
    (claim_c5_huffman_construction [2, 2]).2.1
      (.node false none (some (.node true none
        (some (.node true (some 0) none none))
        (some (.node true (some 1) none none)))) none) 2 (some 1) rfl
      (by decide) rfl,
    ((claim_c5_huffman_construction [0, 0, 1, 0]).2.2 2 (by decide) (by decide)
      (by decide) (by decide)).1 rfl,
    ((claim_c5_huffman_construction [2]).2.2 0 (by decide) (by decide)
      (by decide) (by decide)).2 (by decide)⟩

end Lewton
